import Mathlib

/-!
Verification of the Autolife transcription pipeline against its specification.

Each Python function named below is shallowly embedded as a Lean definition:
pure functions become Lean functions over `String`, `Nat`, `Int` and `ℚ`;
stateful code becomes explicit state passing; fallible code returns
`Option`/`Except`.  Source files referenced:
  - src/modules/cache_utils.py      (Cache)
  - src/modules/disk_utils.py       (check_disk_space)
  - src/modules/network_utils.py    (is_retryable_error, APISession.request, with_retry)
  - src/media_processororiginal.py  (SubtitleWorker.segment_line / process_segments /
                                     process_generate_subtitles / format_timestamp)
  - src/modules/workers/subtitle_worker.py (SubtitleWorker.write_subtitles)
  - src/modules/streaming_utils.py  (AudioStreamer._calculate_chunk_size / stream_chunks)
  - src/modules/processing/batch_manager.py (ProcessingTask, BatchManager)
-/

set_option maxHeartbeats 1000000

/-! ## Cache key (src/modules/cache_utils.py, `Cache._get_cache_key`) -/

/-- Comparator used by Python `sorted(params.items())`: lexicographic on (key, value). -/
def paramLe (a b : String × String) : Bool :=
  decide (a.1 < b.1) || (a.1 == b.1 && decide (a.2 ≤ b.2))

/-- Stable insertion of `a` into an already sorted list (used to model Python `sorted`). -/
def insertParam (a : String × String) : List (String × String) → List (String × String)
  | [] => [a]
  | b :: bs => if paramLe a b then a :: b :: bs else b :: insertParam a bs

/-- Python `sorted(params.items())`: a stable comparison sort; dict keys are unique, so
any comparison sort by `paramLe` yields the same list. -/
def pySorted (params : List (String × String)) : List (String × String) :=
  params.foldr insertParam []

/-- `Cache._get_cache_key` (cache_utils.py:73-88) builds
`key_string = '|'.join([file_path] + [f"{k}={v}" for k, v in sorted(params.items())])`
and returns `sha256(key_string)`.  We model the key string; SHA-256 is applied to it
by the source, so equal key strings always give equal cache keys. -/
def cacheKeyString (filePath : String) (params : List (String × String)) : String :=
  String.intercalate "|"
    (filePath :: (pySorted params).map (fun kv => kv.1 ++ "=" ++ kv.2))

/-! ## Disk check and `Cache.put` (cache_utils.py, disk_utils.py) -/

def MIN_FREE_SPACE_BYTES : Nat := 1024 * 1024 * 1024

def CACHE_MIN_FREE_SPACE : Nat := 1024 * 1024 * 1024

/-- `check_disk_space(path, required_bytes)` (disk_utils.py:42-74), with the disk query
abstracted as the free byte count at `path`.  Returns `true` iff the free space is not
below the requirement. -/
def check_disk_space (freeBytes : Nat) (requiredBytes : Option Nat) : Bool :=
  let required := requiredBytes.getD MIN_FREE_SPACE_BYTES
  decide (¬ freeBytes < required)

/-- The call `check_disk_space(required_bytes=CACHE_MIN_FREE_SPACE)` at cache_utils.py:216.
`check_disk_space` (disk_utils.py:42) declares `path` with no default value, so this call
raises `TypeError` before any disk state is consulted, whatever the disk contains. -/
def putDiskSpaceCheck : Except String Bool :=
  Except.error "TypeError: check_disk_space() missing 1 required positional argument: path"

/-- Cache state: keys present in the metadata index, and the byte content stored under
each key in the cache directory. -/
structure CacheState where
  metadata : List String
  files : List (String × List Nat)
deriving DecidableEq

/-- `Cache.put` (cache_utils.py:197-234).  `fsys` is the external filesystem (path to byte
content).  The body runs inside `try:`; the first statement is the disk-space call, whose
`TypeError` is caught by `except Exception` (cache_utils.py:232) and turned into `None`.
The remaining arms transcribe the rest of the body (copy `data_path` to the cache path
keyed by the cache key, then update metadata). -/
def Cache.put (fsys : String → Option (List Nat)) (st : CacheState)
    (filePath dataPath : String) (params : List (String × String)) :
    Option String × CacheState :=
  match putDiskSpaceCheck with
  | .error _ => (none, st)
  | .ok false => (none, st)
  | .ok true =>
    let key := cacheKeyString filePath params
    match fsys dataPath with
    | none => (none, st)
    | some content =>
      (some ("cache/" ++ key),
       { metadata := key :: st.metadata.filter (fun k => k ≠ key),
         files := (key, content) :: st.files.filter (fun kv => kv.1 ≠ key) })

/-! ## ProcessingTask (src/modules/processing/batch_manager.py:11-46) -/

inductive ProcessingStatus where
  | pending
  | processing
  | completed
  | failed
  | cancelled
deriving DecidableEq

structure ProcessingTask where
  filePath : String
  status : ProcessingStatus
  error : Option String
  progress : Int
deriving DecidableEq

/-- `ProcessingTask.__init__` (batch_manager.py:22-27). -/
def newTask (fp : String) : ProcessingTask :=
  { filePath := fp, status := .pending, error := none, progress := 0 }

/-- `ProcessingTask.update_progress` (batch_manager.py:29-31):
`self.progress = max(0, min(100, value))`. -/
def ProcessingTask.update_progress (t : ProcessingTask) (value : Int) : ProcessingTask :=
  { t with progress := max 0 (min 100 value) }

/-- `ProcessingTask.mark_completed` (batch_manager.py:33-37). -/
def ProcessingTask.mark_completed (t : ProcessingTask) : ProcessingTask :=
  { t with status := .completed, progress := 100 }

/-- `ProcessingTask.mark_failed` (batch_manager.py:39-42). -/
def ProcessingTask.mark_failed (t : ProcessingTask) (e : String) : ProcessingTask :=
  { t with status := .failed, error := some e }

/-- `ProcessingTask.mark_cancelled` (batch_manager.py:44-46). -/
def ProcessingTask.mark_cancelled (t : ProcessingTask) : ProcessingTask :=
  { t with status := .cancelled }

/-! ## Retry executor (src/modules/network_utils.py) -/

/-- Python exception values relevant to `is_retryable_error` (network_utils.py:31-54):
the module's own `RetryableError` / `NonRetryableError`, a `requests` `RequestException`
(with a flag for the connection/timeout subclasses and the optional response status),
and any other exception (e.g. `ValueError`). -/
inductive PyExc where
  | retryableError (msg : String)
  | nonRetryableError (msg : String)
  | requestException (isConnErr : Bool) (status : Option Nat) (msg : String)
  | otherExc (msg : String)
deriving DecidableEq

/-- `str(e)`. -/
def PyExc.msg : PyExc → String
  | .retryableError m => m
  | .nonRetryableError m => m
  | .requestException _ _ m => m
  | .otherExc m => m

/-- `isinstance(e, requests.exceptions.RequestException)`. -/
def PyExc.isRequestException : PyExc → Bool
  | .requestException _ _ _ => true
  | _ => false

/-- `RETRY_STATUS_CODES` (constants.py:36). -/
def RETRY_STATUS_CODES : List Nat := [408, 429, 500, 502, 503, 504]

/-- `is_retryable_error` (network_utils.py:31-54). -/
def is_retryable_error : PyExc → Bool
  | .retryableError _ => true
  | .requestException isConnErr status _ =>
    isConnErr ||
      (match status with
       | some s => RETRY_STATUS_CODES.contains s
       | none => false)
  | _ => false

/-- `MAX_RETRIES` (constants.py:31). -/
def MAX_RETRIES : Nat := 3

/-- The attempt loop of `APISession.request` (network_utils.py:103-154).  `outcomes a`
is the outcome of the `(a+1)`-th `session.request` call, with `raise_for_status()`
folded in (an HTTP error status surfaces as a `requestException` carrying it).
The loop is entered at `attempt = 0 ≤ retryCount` and every iteration either returns,
raises, or increments `attempt`, so the source's guard `attempt == retry_count` fires
exactly when `retryCount ≤ attempt`; the final `raise last_error` after the loop is
unreachable. -/
def apiRequestGo (outcomes : Nat → Except PyExc α) (retryCount attempt : Nat) :
    Except PyExc α :=
  match outcomes attempt with
  | .ok r => .ok r
  | .error e =>
    if is_retryable_error e = false ∨ retryCount ≤ attempt then
      if e.isRequestException then .error (.nonRetryableError e.msg) else .error e
    else
      apiRequestGo outcomes retryCount (attempt + 1)
termination_by retryCount - attempt
decreasing_by
  simp only [not_or, not_le] at *
  omega

/-- `APISession.request` (network_utils.py:103-154). -/
def APISession.request (outcomes : Nat → Except PyExc α) (retryCount : Nat) :
    Except PyExc α :=
  apiRequestGo outcomes retryCount 0

/-- The attempt loop of the `with_retry` wrapper (network_utils.py:192-235).  On
exhaustion (`attempt >= retry_count`) or a non-retryable error, `RetryableError` and
`NonRetryableError` instances are re-raised as they are and every other exception is
wrapped as `NonRetryableError(str(e))`; the final
`raise NonRetryableError("All retry attempts failed: ...")` after the loop is
unreachable. -/
def withRetryGo (outcomes : Nat → Except PyExc α) (retryCount attempt : Nat) :
    Except PyExc α :=
  match outcomes attempt with
  | .ok r => .ok r
  | .error e =>
    if is_retryable_error e = false ∨ retryCount ≤ attempt then
      match e with
      | .retryableError m => .error (.retryableError m)
      | .nonRetryableError m => .error (.nonRetryableError m)
      | e => .error (.nonRetryableError e.msg)
    else
      withRetryGo outcomes retryCount (attempt + 1)
termination_by retryCount - attempt
decreasing_by
  simp only [not_or, not_le] at *
  omega

/-- `with_retry` (network_utils.py:192-235), applied to a function whose successive
call outcomes are `outcomes`. -/
def with_retry (outcomes : Nat → Except PyExc α) (retryCount : Nat) : Except PyExc α :=
  withRetryGo outcomes retryCount 0

/-- How `with_retry` surfaces a final error (network_utils.py:218-221): typed module
errors are re-raised as they are, anything else is wrapped. -/
def wrapWithRetry (e : PyExc) : Except PyExc α :=
  match e with
  | .retryableError m => .error (.retryableError m)
  | .nonRetryableError m => .error (.nonRetryableError m)
  | e => .error (.nonRetryableError e.msg)

/-- How `APISession.request` surfaces a final error (network_utils.py:141-144):
`RequestException`s are wrapped, anything else is re-raised as it is. -/
def wrapApiRequest (e : PyExc) : Except PyExc α :=
  if e.isRequestException then .error (.nonRetryableError e.msg) else .error e

/-! ## Text segmentation (src/media_processororiginal.py, `SubtitleWorker`) -/

/-- Python `str.split()` on the character list: skip whitespace, collect maximal
non-whitespace runs.  A non-whitespace character is prepended to the following run
when the next character continues it; a whitespace character after a run closes it. -/
def pySplitChars : List Char → List (List Char)
  | [] => []
  | [c] => if c.isWhitespace then [] else [[c]]
  | c :: d :: cs =>
    if c.isWhitespace then pySplitChars (d :: cs)
    else
      if d.isWhitespace then [c] :: pySplitChars cs
      else
        match pySplitChars (d :: cs) with
        | [] => [[c]]
        | w :: ws => (c :: w) :: ws

/-- Python `sep.join(xs)`. -/
def pyJoin (sep : String) : List String → String
  | [] => ""
  | [w] => w
  | w :: ws => w ++ sep ++ pyJoin sep ws

/-- Python `str.strip()`: remove leading and trailing whitespace. -/
def pyStrip (s : String) : String :=
  String.mk (((s.data.dropWhile Char.isWhitespace).reverse.dropWhile Char.isWhitespace).reverse)

/-- The word loop of `SubtitleWorker.segment_line` (media_processororiginal.py:107-132).
State: remaining words, `current_line`, `current_length`, accumulated `lines`.
In the source `maxChars` is `self.MAX_CHARS_PER_LINE = 37 ≥ 1`, so the Python
`split_point = maxChars - 1` agrees with the natural subtraction used here. -/
def segLineGo (maxChars : Nat) :
    List String → List String → Nat → List String → List String
  | [], [], _, lines => lines
  | [], a :: as, _, lines => lines ++ [pyJoin " " (a :: as)]
  | w :: ws, [], curLen, lines =>
    if maxChars < curLen + w.length then
      if maxChars < w.length then
        segLineGo maxChars ws [w.drop (maxChars - 1)] (w.drop (maxChars - 1)).length
          (lines ++ [w.take (maxChars - 1) ++ "-"])
      else
        segLineGo maxChars ws [w] w.length lines
    else
      segLineGo maxChars ws [w] (curLen + w.length) lines
  | w :: ws, a :: as, curLen, lines =>
    if maxChars < curLen + w.length + 1 then
      segLineGo maxChars ws [w] w.length (lines ++ [pyJoin " " (a :: as)])
    else
      segLineGo maxChars ws ((a :: as) ++ [w]) (curLen + w.length + 1) lines

/-- `SubtitleWorker.segment_line` (media_processororiginal.py:94-134). -/
def segment_line (maxChars : Nat) (text : String) : List String :=
  segLineGo maxChars ((pySplitChars text.data).map String.mk) [] 0 []

/-- Sentence-ending punctuation of the pattern `[.!?]+`. -/
def isSentencePunct (c : Char) : Bool :=
  c = '.' || c = '!' || c = '?'

/-- `re.split(r'([.!?]+)', text)` on the character list: the pieces between matches
interleaved with the captured punctuation runs, starting and ending with a (possibly
empty) text piece.  Built back to front: a punctuation character either extends the
punctuation run it precedes or opens a new one (preceded by an empty text piece); a
text character extends the leading text piece. -/
def reSplitPunctChars : List Char → List (List Char)
  | [] => [[]]
  | c :: cs =>
    if isSentencePunct c then
      match cs, reSplitPunctChars cs with
      | d :: _, t :: p :: rest =>
        if isSentencePunct d then [] :: (c :: p) :: rest
        else [] :: [c] :: t :: p :: rest
      | _, r => [] :: [c] :: r
    else
      match reSplitPunctChars cs with
      | [] => [[c]]
      | t :: rest => (c :: t) :: rest

/-- `re.split(r'([.!?]+)', text)`. -/
def reSplitPunct (cs : List Char) : List String :=
  (reSplitPunctChars cs).map String.mk

/-- The pairing loop `for i in range(0, len(sentences), 2)`
(media_processororiginal.py:157-160): element `i` with element `i+1` (or `""`). -/
def pairUp : List String → List (String × String)
  | [] => []
  | [s] => [(s, "")]
  | s :: p :: rest => (s, p) :: pairUp rest

/-- Sentence splitting of one segment text (media_processororiginal.py:153-154):
`re.split` then `[s.strip() for s in sentences if s.strip()]`, then pairing. -/
def sentencePairs (text : String) : List (String × String) :=
  pairUp (((reSplitPunct text.data).map pyStrip).filter (fun s => s ≠ ""))

/-- One produced subtitle cue: `{'text': ..., 'start': ..., 'end': ...}`. -/
structure SubtitleCue where
  text : String
  start : ℚ
  stop : ℚ
deriving DecidableEq

/-- The formatting constants set in `SubtitleWorker.__init__`
(media_processororiginal.py:74-77). -/
structure SubtitleParams where
  maxCharsPerLine : Nat
  minDuration : ℚ
  maxDuration : ℚ
  charsPerSecond : ℚ
deriving DecidableEq

def defaultParams : SubtitleParams :=
  { maxCharsPerLine := 37, minDuration := 1, maxDuration := 7, charsPerSecond := 20 }

/-- An element of the `segments` list passed to `process_segments`: a dict (with
optional `start`/`end`, defaulted as in the source) or a plain string. -/
inductive PySegment where
  | dict (text : String) (start? : Option ℚ) (stop? : Option ℚ)
  | str (text : String)
deriving DecidableEq

/-- The duration computed for one sentence before truncation
(media_processororiginal.py:168-179): reading-speed estimate clamped to
`[minDuration, maxDuration]`, then ×1.1 if multi-line, ×1.2 if the punctuation holds
`!` or `?` (`any(p in punctuation for p in '!?')`, a character-membership test). -/
def cueDuration (P : SubtitleParams) (lines : List String) (p : String) : ℚ :=
  let optimal := (((lines.map String.length).sum : Nat) : ℚ) / P.charsPerSecond
  let dur0 := min (max optimal P.minDuration) P.maxDuration
  let dur1 := if 1 < lines.length then dur0 * (11 / 10) else dur0
  if p.data.contains '!' || p.data.contains '?' then dur1 * (12 / 10) else dur1

/-- The per-sentence cue loop of `SubtitleWorker.process_segments`
(media_processororiginal.py:156-191): greedy line packing, the sentence duration of
`cueDuration`, and truncation at the parent segment's end time
(`duration = end_time - current_time` when the cue would overrun). -/
def processPairs (P : SubtitleParams) (stopTime : ℚ) :
    List (String × String) → ℚ → List SubtitleCue
  | [], _ => []
  | (s, p) :: rest, cur =>
    if (segment_line P.maxCharsPerLine (s ++ p)).isEmpty then
      processPairs P stopTime rest cur
    else
      if stopTime < cur + cueDuration P (segment_line P.maxCharsPerLine (s ++ p)) p then
        { text := pyJoin "\n" (segment_line P.maxCharsPerLine (s ++ p)), start := cur,
          stop := cur + (stopTime - cur) }
          :: processPairs P stopTime rest (cur + (stopTime - cur))
      else
        { text := pyJoin "\n" (segment_line P.maxCharsPerLine (s ++ p)), start := cur,
          stop := cur + cueDuration P (segment_line P.maxCharsPerLine (s ++ p)) p }
          :: processPairs P stopTime rest
            (cur + cueDuration P (segment_line P.maxCharsPerLine (s ++ p)) p)

/-- `SubtitleWorker.process_segments` on one input segment
(media_processororiginal.py:143-205), both the dict and the plain-string branch. -/
def processSegment (P : SubtitleParams) : PySegment → List SubtitleCue
  | .dict text start? stop? =>
    let t := pyStrip text
    if t = "" then []
    else
      let start := start?.getD 0
      let stop := stop?.getD (start + 5)
      processPairs P stop (sentencePairs t) start
  | .str text =>
    let lines := segment_line P.maxCharsPerLine text
    if lines.isEmpty then []
    else
      let totalChars : ℚ := ((lines.map String.length).sum : Nat)
      let dur := min (max (totalChars / P.charsPerSecond) P.minDuration) P.maxDuration
      [{ text := pyJoin "\n" lines, start := 0, stop := dur }]

/-- `SubtitleWorker.process_segments` (media_processororiginal.py:136-207). -/
def process_segments (P : SubtitleParams) (segs : List PySegment) : List SubtitleCue :=
  (segs.map (processSegment P)).flatten

/-! ## SRT output (media_processororiginal.py:384-426, 504-510;
modules/workers/subtitle_worker.py:543-552) -/

/-- Python `f"{n:0{width}d}"`: zero-padded decimal, the sign counted in the width. -/
def padZeros (width : Nat) (n : Int) : String :=
  if n < 0 then
    let s := toString (-n).toNat
    "-" ++ String.mk (List.replicate (width - 1 - s.length) '0') ++ s
  else
    let s := toString n.toNat
    String.mk (List.replicate (width - s.length) '0') ++ s

/-- Python `int(x)`: truncation toward zero. -/
def pyInt (q : ℚ) : Int :=
  if 0 ≤ q then ⌊q⌋ else -⌊-q⌋

/-- Python float `%` with a positive divisor: `a - b * (a // b)` (sign of the divisor). -/
def pyFloorMod (a b : ℚ) : ℚ :=
  a - b * ⌊a / b⌋

/-- `SubtitleWorker.format_timestamp` (media_processororiginal.py:504-510). -/
def format_timestamp (seconds : ℚ) : String :=
  let hrs := ⌊seconds / 3600⌋
  let mins := ⌊pyFloorMod seconds 3600 / 60⌋
  let secs := pyInt (pyFloorMod seconds 60)
  let msecs := pyInt ((seconds - pyInt seconds) * 1000)
  padZeros 2 hrs ++ ":" ++ padZeros 2 mins ++ ":" ++ padZeros 2 secs ++ "," ++ padZeros 3 msecs

/-- One written SRT block: `f"{i}\n{start_time} --> {end_time}\n{text}\n\n"`
(media_processororiginal.py:426). -/
def srtBlock (i : Nat) (c : SubtitleCue) (text : String) : String :=
  toString i ++ "\n" ++ format_timestamp c.start ++ " --> " ++ format_timestamp c.stop
    ++ "\n" ++ text ++ "\n\n"

/-- The write loop of `process_generate_subtitles` (media_processororiginal.py:418-426):
`for i, segment in enumerate(processed_segments, start=1)`, writing each block but
skipping cues whose stripped text is empty (the index is consumed regardless). -/
def srtGo : Nat → List SubtitleCue → String
  | _, [] => ""
  | i, c :: rest =>
    (if pyStrip c.text = "" then "" else srtBlock i c (pyStrip c.text)) ++ srtGo (i + 1) rest

/-- The SRT file content written by `process_generate_subtitles` for a list of
processed segments. -/
def srtContent (cues : List SubtitleCue) : String :=
  srtGo 1 cues

/-- Modelled from the spec (§6 "SRT output file"): a sequence of blocks
`index\nHH:MM:SS,mmm --> HH:MM:SS,mmm\ntext\n\n` whose indices are sequential and
1-based across the whole file — the `i`-th emitted cue carries index `i`, no gaps. -/
def specSrtGo : Nat → List SubtitleCue → String
  | _, [] => ""
  | i, c :: rest => srtBlock i c c.text ++ specSrtGo (i + 1) rest

/-- Modelled from the spec: the whole spec-shaped SRT artifact. -/
def specSrtBlocks (cues : List SubtitleCue) : String :=
  specSrtGo 1 cues

/-- A subtitle dict of the modular worker (`format_subtitles`,
modules/workers/subtitle_worker.py:344-349). -/
structure WorkerSubtitle where
  start_time : ℚ
  duration : ℚ
  text : String
deriving DecidableEq

/-- `SubtitleWorker.write_subtitles` (modules/workers/subtitle_worker.py:543-552):
`f.write('\n\n'.join(sub['text'] for sub in subtitles))`. -/
def write_subtitles (subs : List WorkerSubtitle) : String :=
  pyJoin "\n\n" (subs.map (fun s => s.text))

/-- The segment's effective start time does not exceed its effective end time, with the
defaults of media_processororiginal.py:146-147 applied. -/
def segOrdered : PySegment → Bool
  | .dict _ start? stop? => decide (start?.getD 0 ≤ stop?.getD (start?.getD 0 + 5))
  | .str _ => true

/-- A word as produced by `str.split()`: non-empty and free of whitespace. -/
def GoodWord (s : String) : Prop :=
  s.data ≠ [] ∧ ∀ c ∈ s.data, c.isWhitespace = false

/-- A string whose first and last characters exist and are not whitespace
(`str.strip()` leaves such a string unchanged, and it is not empty). -/
def GoodLine (s : String) : Prop :=
  s.data ≠ [] ∧ (∀ c, s.data.head? = some c → c.isWhitespace = false) ∧
    (∀ c, s.data.getLast? = some c → c.isWhitespace = false)

/-! ## Audio chunk planner (src/modules/streaming_utils.py, `AudioStreamer`) -/

/-- `AudioChunk` (streaming_utils.py:27-49), the planning-relevant fields. -/
structure AudioChunk where
  startTime : ℚ
  duration : ℚ
deriving DecidableEq

/-- Modelled from the spec: the chunking constants `MIN_CHUNK_SIZE`,
`MAX_CHUNKS_IN_MEMORY`, `MAX_CHUNK_DURATION`, `MAX_PARALLEL_CHUNKS` and `CHUNK_OVERLAP`
are imported by streaming_utils.py from `modules.constants` but are missing from
src/modules/constants.py; spec §4.3 gives the formulas that consume them and the
`chunkOverlap` default of 1.0 s, and src/tests/config/test_config.py asserts the sizes
positive and the overlap non-negative.  They are therefore carried as parameters. -/
structure ChunkConsts where
  minChunkSize : ℚ
  maxChunksInMemory : ℚ
  maxChunkDuration : ℚ
  maxParallelChunks : ℚ
  chunkOverlap : ℚ
deriving DecidableEq

/-- `AudioStreamer._calculate_chunk_size` (streaming_utils.py:130-139):
`min(max(MIN_CHUNK_SIZE, file_size / MAX_CHUNKS_IN_MEMORY),
min(MAX_CHUNK_DURATION, duration / MAX_PARALLEL_CHUNKS))`. -/
def chunkSize (C : ChunkConsts) (duration fileSize : ℚ) : ℚ :=
  min (max C.minChunkSize (fileSize / C.maxChunksInMemory))
    (min C.maxChunkDuration (duration / C.maxParallelChunks))

/-- `AudioStreamer._calculate_total_chunks` (streaming_utils.py:141-143):
`max(1, int(self.duration / self.chunk_size))`. -/
def totalChunks (C : ChunkConsts) (duration fileSize : ℚ) : Nat :=
  max 1 (pyInt (duration / chunkSize C duration fileSize)).toNat

/-- The chunk plan of `AudioStreamer.stream_chunks` (streaming_utils.py:160-196):
chunk `i` starts at `i * (chunk_duration - overlap)`; the last chunk's duration is
clamped to `self.duration - start_time`, all others use `chunk_duration`. -/
def planChunks (C : ChunkConsts) (duration fileSize : ℚ) : List AudioChunk :=
  (List.range (totalChunks C duration fileSize)).map fun (i : ℕ) =>
    { startTime := (i : ℚ) * (chunkSize C duration fileSize - C.chunkOverlap),
      duration := if i = totalChunks C duration fileSize - 1
        then duration - (i : ℚ) * (chunkSize C duration fileSize - C.chunkOverlap)
        else chunkSize C duration fileSize }

/-- Modelled from the spec: one concrete constant assignment satisfying the config-test
constraints, with the spec's `chunkOverlap = 1.0` default. -/
def specChunkConsts : ChunkConsts :=
  { minChunkSize := 5, maxChunksInMemory := 3, maxChunkDuration := 30,
    maxParallelChunks := 4, chunkOverlap := 1 }

/-! ## BatchManager (src/modules/processing/batch_manager.py:48-211) -/

/-- Dict lookup `self._tasks[file]`. -/
def lookupTask : List (String × ProcessingTask) → String → Option ProcessingTask
  | [], _ => none
  | (k, t) :: rest, fp => if k = fp then some t else lookupTask rest fp

/-- Mutation of the task object stored under `fp`.  Python task objects are shared
between `_tasks` and `_active_tasks`, so marking a task through either view updates
both; here `_tasks` is the authoritative store and `_active_tasks` is kept as keys. -/
def updateTasks (f : ProcessingTask → ProcessingTask) (fp : String) :
    List (String × ProcessingTask) → List (String × ProcessingTask)
  | [] => []
  | (k, t) :: rest => (if k = fp then (k, f t) else (k, t)) :: updateTasks f fp rest

/-- `BatchManager` state (batch_manager.py:59-64): the insertion-ordered `_tasks` dict,
the keys of `_active_tasks`, `_is_processing`, and `max_concurrent`. -/
structure BMState where
  maxConcurrent : Nat
  tasks : List (String × ProcessingTask)
  active : List String
  isProcessing : Bool
deriving DecidableEq

/-- `BatchManager.__init__` / `_initialize` (batch_manager.py:59-71). -/
def initBM (maxConcurrent : Nat) : BMState :=
  { maxConcurrent := maxConcurrent, tasks := [], active := [], isProcessing := false }

/-- `get_status` (batch_manager.py:172-174): the task's status, or `None` if unknown. -/
def BMState.get_status (st : BMState) (fp : String) : Option ProcessingStatus :=
  (lookupTask st.tasks fp).map (fun t => t.status)

def BMState.updateTask (st : BMState) (fp : String)
    (f : ProcessingTask → ProcessingTask) : BMState :=
  { st with tasks := updateTasks f fp st.tasks }

/-- `_validate_file` (batch_manager.py:84-90): non-empty path, existing file (`fsys`
stands for `Path(file).exists()`), and not already tracked. -/
def validateFile (fsys : String → Bool) (st : BMState) (file : String) : Bool :=
  !(file == "") && fsys file && !(st.tasks.any (fun kv => kv.1 == file))

/-- `add_files` (batch_manager.py:73-82), the `for file in files` loop. -/
def add_files (fsys : String → Bool) (st : BMState) : List String → BMState
  | [] => st
  | file :: rest =>
    if validateFile fsys st file then
      add_files fsys { st with tasks := st.tasks ++ [(file, newTask file)] } rest
    else
      add_files fsys st rest

/-- `_get_next_pending_task` (batch_manager.py:117-122): first task with status
`PENDING` in insertion order. -/
def firstPending : List (String × ProcessingTask) → Option String
  | [] => none
  | (fp, t) :: rest =>
    if t.status = ProcessingStatus.pending then some fp else firstPending rest

/-- `_start_task` (batch_manager.py:124-128): set the task to `PROCESSING` and add it
to `_active_tasks`. -/
def startTask (st : BMState) (fp : String) : BMState :=
  { st.updateTask fp (fun t => { t with status := ProcessingStatus.processing }) with
    active := st.active ++ [fp] }

/-- The `while` loop of `_process_next_batch` (batch_manager.py:110-115).  `fuel` bounds
the iterations: each one turns a pending task into `PROCESSING`, so `tasks.length`
iterations always suffice, after which the state equals the loop's
`next_task is None` exit. -/
def processBatchGo : Nat → BMState → BMState
  | 0, st => st
  | fuel + 1, st =>
    if st.active.length < st.maxConcurrent then
      match firstPending st.tasks with
      | some fp => processBatchGo fuel (startTask st fp)
      | none => st
    else st

/-- `_process_next_batch` (batch_manager.py:105-115). -/
def processNextBatch (st : BMState) : BMState :=
  if st.isProcessing then processBatchGo st.tasks.length st else st

/-- `_cleanup_task` (batch_manager.py:151-157) with the `_on_batch_completed`
transition (batch_manager.py:159-162) folded in. -/
def cleanupTask (st : BMState) (fp : String) : BMState :=
  if (st.active.filter (fun x => x ≠ fp)).isEmpty && st.isProcessing then
    { st with active := st.active.filter (fun x => x ≠ fp), isProcessing := false }
  else
    { st with active := st.active.filter (fun x => x ≠ fp) }

/-- `_on_task_completed` (batch_manager.py:133-140). -/
def onTaskCompleted (st : BMState) (fp : String) : BMState :=
  if st.active.contains fp then
    processNextBatch (cleanupTask (st.updateTask fp ProcessingTask.mark_completed) fp)
  else st

/-- `_on_task_failed` (batch_manager.py:142-149). -/
def onTaskFailed (st : BMState) (fp : String) (err : String) : BMState :=
  if st.active.contains fp then
    processNextBatch (cleanupTask (st.updateTask fp (fun t => t.mark_failed err)) fp)
  else st

/-- `process_files` (batch_manager.py:92-103); `if files:` is Python truthiness, so an
absent or empty list adds nothing. -/
def process_files (fsys : String → Bool) (st : BMState)
    (files : Option (List String)) : BMState :=
  let st1 := match files with
    | some fs => if fs.isEmpty then st else add_files fsys st fs
    | none => st
  if st1.tasks.isEmpty then st1
  else processNextBatch { st1 with isProcessing := true }

/-- The `for task in self._active_tasks.values(): task.mark_cancelled()` loop of
`stop_processing` (batch_manager.py:167-169). -/
def cancelAll : List String → BMState → BMState
  | [], st => st
  | fp :: rest, st => cancelAll rest (st.updateTask fp ProcessingTask.mark_cancelled)

/-- `stop_processing` (batch_manager.py:164-170). -/
def stop_processing (st : BMState) : BMState :=
  { cancelAll st.active { st with isProcessing := false } with active := [] }

/-- The externally driven operations of `BatchManager` named by the claim. -/
inductive BMOp where
  | addFilesOp (files : List String)
  | processFilesOp (files : Option (List String))
  | taskCompletedOp (fp : String)
  | taskFailedOp (fp : String) (err : String)
  | stopProcessingOp
deriving DecidableEq

def applyOp (fsys : String → Bool) (st : BMState) : BMOp → BMState
  | .addFilesOp files => add_files fsys st files
  | .processFilesOp files => process_files fsys st files
  | .taskCompletedOp fp => onTaskCompleted st fp
  | .taskFailedOp fp err => onTaskFailed st fp err
  | .stopProcessingOp => stop_processing st

/-- The state reached from a fresh manager by a sequence of operations. -/
def runOps (fsys : String → Bool) (maxConcurrent : Nat) (ops : List BMOp) : BMState :=
  ops.foldl (applyOp fsys) (initBM maxConcurrent)

/-- Completed, Failed and Cancelled are the terminal statuses. -/
def isTerminal : ProcessingStatus → Bool
  | .completed => true
  | .failed => true
  | .cancelled => true
  | _ => false

/-- Reachable-state invariant: task keys are unique (`_validate_file` refuses files
already in `_tasks`) and every task in `_active_tasks` has status `PROCESSING`. -/
def BMInv (st : BMState) : Prop :=
  (st.tasks.map Prod.fst).Nodup ∧
    ∀ fp ∈ st.active, st.get_status fp = some ProcessingStatus.processing

/-! ## Theorems: C1, C10, C8, C4 -/

/-- C1 (code_bug evidence): `Cache.put` returns `None` and leaves the cache unchanged on
every input, regardless of free disk space, because its disk-space check calls
`check_disk_space` without the required positional `path` argument, and the resulting
`TypeError` is swallowed by the blanket `except` as a failure. -/
theorem cache_put_always_none (fsys : String → Option (List Nat)) (st : CacheState)
    (filePath dataPath : String) (params : List (String × String)) :
    Cache.put fsys st filePath dataPath params = (none, st) := rfl

/-- C10: the cache key function is not injective: the distinct inputs
`("a|b=c", {})` and `("a", {"b": "c"})` produce the same key string, hence the same
SHA-256 cache key (the hash is a function of the key string alone). -/
theorem cache_key_collision :
    (("a|b=c", ([] : List (String × String))) ≠ ("a", [("b", "c")])) ∧
    ∀ hash : String → String,
      hash (cacheKeyString "a|b=c" []) = hash (cacheKeyString "a" [("b", "c")]) := by
  refine ⟨by decide, fun hash => ?_⟩
  have h : cacheKeyString "a|b=c" [] = cacheKeyString "a" [("b", "c")] := by decide
  rw [h]

/-- C8 (counterexample): progress is not monotone across updates — updating a task's
progress to 50 and then to 30 reports 30 after having reported 50. -/
theorem progress_not_monotone :
    (((newTask "f").update_progress 50).update_progress 30).progress
      < ((newTask "f").update_progress 50).progress := by decide

/-- C8 (amended): each reported progress value lies in 0..100 — `update_progress`
clamps every incoming value into that range (it does not enforce monotonicity). -/
theorem update_progress_bounds (t : ProcessingTask) (value : Int) :
    0 ≤ (t.update_progress value).progress ∧ (t.update_progress value).progress ≤ 100 := by
  simp only [ProcessingTask.update_progress]
  omega

theorem withRetryGo_exhaust (outcomes : Nat → Except PyExc α) (retryCount : Nat) (e : PyExc)
    (hall : ∀ a, a ≤ retryCount →
      ∃ e', outcomes a = Except.error e' ∧ is_retryable_error e' = true)
    (hlast : outcomes retryCount = Except.error e) :
    ∀ k attempt, attempt + k = retryCount →
      withRetryGo outcomes retryCount attempt = wrapWithRetry e := by
  intro k
  induction k with
  | zero =>
    intro attempt h
    have ha : attempt = retryCount := by omega
    subst ha
    rw [withRetryGo]
    simp only [hlast]
    rw [if_pos (Or.inr le_rfl)]
    cases e <;> rfl
  | succ k ih =>
    intro attempt h
    obtain ⟨e', he', hr⟩ := hall attempt (by omega)
    have hcond : ¬(is_retryable_error e' = false ∨ retryCount ≤ attempt) := by
      simp only [hr, not_or, not_le]
      exact ⟨by simp, by omega⟩
    rw [withRetryGo]
    simp only [he']
    rw [if_neg hcond]
    exact ih (attempt + 1) (by omega)

theorem apiRequestGo_exhaust (outcomes : Nat → Except PyExc α) (retryCount : Nat) (e : PyExc)
    (hall : ∀ a, a ≤ retryCount →
      ∃ e', outcomes a = Except.error e' ∧ is_retryable_error e' = true)
    (hlast : outcomes retryCount = Except.error e) :
    ∀ k attempt, attempt + k = retryCount →
      apiRequestGo outcomes retryCount attempt = wrapApiRequest e := by
  intro k
  induction k with
  | zero =>
    intro attempt h
    have ha : attempt = retryCount := by omega
    subst ha
    rw [apiRequestGo]
    simp only [hlast]
    rw [if_pos (Or.inr le_rfl)]
    rfl
  | succ k ih =>
    intro attempt h
    obtain ⟨e', he', hr⟩ := hall attempt (by omega)
    have hcond : ¬(is_retryable_error e' = false ∨ retryCount ≤ attempt) := by
      simp only [hr, not_or, not_le]
      exact ⟨by simp, by omega⟩
    rw [apiRequestGo]
    simp only [he']
    rw [if_neg hcond]
    exact ih (attempt + 1) (by omega)

/-- C4 (counterexample): a `RetryableError` that persists through all attempts is
re-raised in its original retryable form by both `with_retry` and `APISession.request`,
not wrapped as `NonRetryableError`. -/
theorem retry_exhaustion_not_wrapped :
    with_retry (fun _ => (Except.error (PyExc.retryableError "boom") : Except PyExc Unit))
        MAX_RETRIES
      = Except.error (PyExc.retryableError "boom") ∧
    APISession.request
        (fun _ => (Except.error (PyExc.retryableError "boom") : Except PyExc Unit))
        MAX_RETRIES
      = Except.error (PyExc.retryableError "boom") := by
  constructor
  · exact withRetryGo_exhaust _ MAX_RETRIES (PyExc.retryableError "boom")
      (fun a _ => ⟨PyExc.retryableError "boom", rfl, rfl⟩) rfl MAX_RETRIES 0 rfl
  · exact apiRequestGo_exhaust _ MAX_RETRIES (PyExc.retryableError "boom")
      (fun a _ => ⟨PyExc.retryableError "boom", rfl, rfl⟩) rfl MAX_RETRIES 0 rfl

/-- C4 (amended): when a retryable error persists through all allowed attempts, the
executors surface the last error as follows — a retryable `RequestException` is wrapped
as `NonRetryableError(str(e))`, but an instance of the `RetryableError` class is
re-raised unchanged, by both `with_retry` and `APISession.request`. -/
theorem retry_exhaustion_wrapping (outcomes : Nat → Except PyExc Unit)
    (retryCount : Nat) (e : PyExc)
    (hall : ∀ a, a ≤ retryCount →
      ∃ e', outcomes a = Except.error e' ∧ is_retryable_error e' = true)
    (hlast : outcomes retryCount = Except.error e) :
    (∀ isConn status m, e = PyExc.requestException isConn status m →
      with_retry outcomes retryCount = Except.error (.nonRetryableError m) ∧
      APISession.request outcomes retryCount = Except.error (.nonRetryableError m)) ∧
    (∀ m, e = PyExc.retryableError m →
      with_retry outcomes retryCount = Except.error (.retryableError m) ∧
      APISession.request outcomes retryCount = Except.error (.retryableError m)) := by
  have hw := withRetryGo_exhaust outcomes retryCount e hall hlast retryCount 0 (by omega)
  have ha := apiRequestGo_exhaust outcomes retryCount e hall hlast retryCount 0 (by omega)
  constructor
  · intro isConn status m hm
    subst hm
    refine ⟨hw, ?_⟩
    rw [APISession.request, ha, wrapApiRequest]
    simp [PyExc.isRequestException, PyExc.msg]
  · intro m hm
    subst hm
    refine ⟨hw, ?_⟩
    rw [APISession.request, ha, wrapApiRequest]
    simp [PyExc.isRequestException]

/-- Witness for `retry_exhaustion_wrapping` at a concrete run: a connection error on
every one of the two allowed attempts. -/
theorem retry_exhaustion_wrapping_witness :
    with_retry
        (fun _ => (Except.error (PyExc.requestException true none "conn") :
          Except PyExc Unit)) 1
      = Except.error (PyExc.nonRetryableError "conn") := by
  have h := retry_exhaustion_wrapping
    (fun _ => (Except.error (PyExc.requestException true none "conn") : Except PyExc Unit))
    1 (PyExc.requestException true none "conn")
    (fun a _ => ⟨PyExc.requestException true none "conn", rfl, rfl⟩) rfl
  exact (h.1 true none "conn" rfl).1

/-! ## Theorems: C2 -/

theorem pyJoin_append_single (sep : String) (xs : List String) (w : String) :
    pyJoin sep (xs ++ [w]) =
      if xs.isEmpty then w else pyJoin sep xs ++ sep ++ w := by
  induction xs with
  | nil => rfl
  | cons x xs ih =>
    cases xs with
    | nil => rfl
    | cons y ys =>
      have h1 : pyJoin sep ((x :: y :: ys) ++ [w])
          = x ++ sep ++ pyJoin sep ((y :: ys) ++ [w]) := rfl
      rw [h1, ih]
      simp [pyJoin, String.append_assoc]

theorem pyJoin_length_cons_append (a : String) (as : List String) (w : String) :
    (pyJoin " " ((a :: as) ++ [w])).length = (pyJoin " " (a :: as)).length + 1 + w.length := by
  rw [pyJoin_append_single]
  rw [if_neg (by simp), String.length_append, String.length_append]
  rfl

theorem segLineGo_length_le (maxChars : Nat) (ws : List String) :
    ∀ curLine lines curLen,
      (∀ w ∈ ws, w.length ≤ maxChars) →
      curLen = (pyJoin " " curLine).length →
      curLen ≤ maxChars →
      (∀ l ∈ lines, l.length ≤ maxChars) →
      ∀ l ∈ segLineGo maxChars ws curLine curLen lines, l.length ≤ maxChars := by
  induction ws with
  | nil =>
    intro curLine lines curLen _ hcl hle hlines l hl
    cases curLine with
    | nil => exact hlines l hl
    | cons a as =>
      rw [segLineGo] at hl
      rcases List.mem_append.mp hl with h | h
      · exact hlines l h
      · rw [List.mem_singleton.mp h]
        omega
  | cons w ws ih =>
    intro curLine lines curLen hw hcl hle hlines l hl
    have hwle : w.length ≤ maxChars := hw w (List.mem_cons_self w ws)
    have hw' : ∀ x ∈ ws, x.length ≤ maxChars := fun x hx => hw x (List.mem_cons_of_mem w hx)
    cases curLine with
    | nil =>
      have hc0 : curLen = 0 := hcl
      rw [segLineGo] at hl
      split at hl
      · split at hl
        · omega
        · exact ih [w] lines w.length hw' rfl hwle hlines l hl
      · refine ih [w] lines (curLen + w.length) hw' ?_ (by omega) hlines l hl
        have h1 : (pyJoin " " [w]).length = w.length := rfl
        omega
    | cons a as =>
      rw [segLineGo] at hl
      split at hl
      · refine ih [w] (lines ++ [pyJoin " " (a :: as)]) w.length hw' rfl hwle ?_ l hl
        intro x hx
        rcases List.mem_append.mp hx with h | h
        · exact hlines x h
        · rw [List.mem_singleton.mp h]
          omega
      · refine ih ((a :: as) ++ [w]) lines (curLen + w.length + 1) hw' ?_ (by omega) hlines l hl
        rw [pyJoin_length_cons_append]
        omega

/-- C2 (counterexample): `segment_line` can emit a line longer than the limit — with
`maxCharsPerLine = 37` (the source's constant), the text `"hi "` followed by a 38
character word yields the 38 character word as a line, unhyphenated, because the
hyphen-splitting branch only runs when the overlong word starts an empty line. -/
theorem segment_line_overlength :
    ∃ l ∈ segment_line 37 ("hi " ++ String.mk (List.replicate 38 'a')), 37 < l.length := by
  decide

/-- C2 (amended): every line emitted by the greedy line packing of
`SubtitleWorker.segment_line` has length at most `maxCharsPerLine`, provided every word
of the input has length at most `maxCharsPerLine`.  (Without that proviso the bound
fails: an overlong word is hyphen-split only when it begins a line, and only once, so
overlong lines can be emitted.) -/
theorem segment_line_length_bound (maxChars : Nat) (text : String)
    (hword : ∀ w ∈ (pySplitChars text.data).map String.mk, w.length ≤ maxChars) :
    ∀ l ∈ segment_line maxChars text, l.length ≤ maxChars :=
  segLineGo_length_le maxChars ((pySplitChars text.data).map String.mk) [] [] 0 hword
    rfl (Nat.zero_le _) (by simp)

/-- Witness for `segment_line_length_bound` on a concrete text. -/
theorem segment_line_length_bound_witness :
    (∀ w ∈ (pySplitChars "ab cd".data).map String.mk, w.length ≤ 5) ∧
    ∀ l ∈ segment_line 5 "ab cd", l.length ≤ 5 :=
  ⟨by decide, segment_line_length_bound 5 "ab cd" (by decide)⟩

/-! ## Theorems: C3 -/

theorem cueDuration_bounds (lines : List String) (p : String) :
    0 ≤ cueDuration defaultParams lines p ∧ cueDuration defaultParams lines p ≤ 231 / 25 := by
  simp only [cueDuration]
  have h1 : (1 : ℚ) ≤ min (max ((((lines.map String.length).sum : Nat) : ℚ)
      / defaultParams.charsPerSecond) defaultParams.minDuration) defaultParams.maxDuration := by
    apply le_min
    · exact le_trans (by norm_num [defaultParams]) (le_max_right _ _)
    · norm_num [defaultParams]
  have h7 : min (max ((((lines.map String.length).sum : Nat) : ℚ)
      / defaultParams.charsPerSecond) defaultParams.minDuration) defaultParams.maxDuration
      ≤ 7 := by
    refine le_trans (min_le_right _ _) ?_
    norm_num [defaultParams]
  split_ifs <;> constructor <;> nlinarith [h1, h7]

theorem processPairs_duration_bounds (stopTime : ℚ) (pairs : List (String × String)) :
    ∀ cur, cur ≤ stopTime →
      ∀ c ∈ processPairs defaultParams stopTime pairs cur,
        0 ≤ c.stop - c.start ∧ c.stop - c.start ≤ 231 / 25 := by
  induction pairs with
  | nil =>
    intro cur _ c hc
    simp [processPairs] at hc
  | cons sp rest ih =>
    obtain ⟨s, p⟩ := sp
    intro cur hcur c hc
    rw [processPairs] at hc
    split at hc
    · exact ih cur hcur c hc
    · obtain ⟨hd0, hd9⟩ := cueDuration_bounds
        (segment_line defaultParams.maxCharsPerLine (s ++ p)) p
      split at hc
      · rcases List.mem_cons.mp hc with h | h
        · subst h
          refine ⟨?_, ?_⟩
          · show (0 : ℚ) ≤ cur + (stopTime - cur) - cur
            linarith
          · show cur + (stopTime - cur) - cur ≤ 231 / 25
            linarith
        · exact ih (cur + (stopTime - cur)) (by linarith) c h
      · rcases List.mem_cons.mp hc with h | h
        · subst h
          refine ⟨?_, ?_⟩
          · show (0 : ℚ) ≤ cur + cueDuration defaultParams
              (segment_line defaultParams.maxCharsPerLine (s ++ p)) p - cur
            linarith
          · show cur + cueDuration defaultParams
              (segment_line defaultParams.maxCharsPerLine (s ++ p)) p - cur ≤ 231 / 25
            linarith
        · exact ih (cur + cueDuration defaultParams
            (segment_line defaultParams.maxCharsPerLine (s ++ p)) p) (by linarith) c h

set_option maxRecDepth 40000 in
/-- C3 (counterexample): cue durations escape `[minDuration, maxDuration]` in both
directions.  A 151-character sentence ending in `!` inside a long segment is clamped to
`maxDuration = 7` and then multiplied by 1.1 (multi-line) and 1.2 (strong punctuation),
giving duration 9.24 > 7; and the second sentence of a segment ending at t = 1 is
truncated to duration 0 < minDuration = 1. -/
theorem cue_duration_out_of_bounds :
    (∃ c ∈ process_segments defaultParams
        [PySegment.dict (String.mk (List.replicate 150 'a') ++ "!") (some 0) (some 100)],
      defaultParams.maxDuration < c.stop - c.start) ∧
    (∃ c ∈ process_segments defaultParams
        [PySegment.dict "Hello there. Bye." (some 0) (some 1)],
      c.stop - c.start < defaultParams.minDuration) := by
  constructor
  · have hstrip : pyStrip (String.mk (List.replicate 150 'a') ++ "!")
        = String.mk (List.replicate 150 'a') ++ "!" := by decide
    have hne : ¬ pyStrip (String.mk (List.replicate 150 'a') ++ "!") = "" := by decide
    have hpairs : sentencePairs (String.mk (List.replicate 150 'a') ++ "!")
        = [(String.mk (List.replicate 150 'a'), "!")] := by decide
    have hlne : ¬ (segment_line defaultParams.maxCharsPerLine
        (String.mk (List.replicate 150 'a') ++ "!")).isEmpty = true := by decide
    have hsum : ((segment_line defaultParams.maxCharsPerLine
        (String.mk (List.replicate 150 'a') ++ "!")).map String.length).sum = 152 := by decide
    have hlen : 1 < (segment_line defaultParams.maxCharsPerLine
        (String.mk (List.replicate 150 'a') ++ "!")).length := by decide
    have hcd : cueDuration defaultParams (segment_line defaultParams.maxCharsPerLine
        (String.mk (List.replicate 150 'a') ++ "!")) "!" = 231 / 25 := by
      simp only [cueDuration, hsum, if_pos hlen,
        if_pos (by decide : ("!".data.contains '!' || "!".data.contains '?') = true)]
      norm_num [defaultParams, max_def, min_def]
    have hflow : process_segments defaultParams
        [PySegment.dict (String.mk (List.replicate 150 'a') ++ "!") (some 0) (some 100)]
        = [{ text := pyJoin "\n" (segment_line defaultParams.maxCharsPerLine
              (String.mk (List.replicate 150 'a') ++ "!")), start := 0, stop := 0 + 231 / 25 }] := by
      rw [process_segments]
      simp only [List.map_cons, List.map_nil, List.flatten_cons, List.flatten_nil,
        List.append_nil]
      rw [processSegment]
      rw [if_neg hne, hstrip, hpairs]
      simp only [Option.getD_some]
      rw [processPairs, if_neg hlne, hcd]
      rw [if_neg (by norm_num)]
      simp only [processPairs]
    rw [hflow]
    refine ⟨_, List.mem_singleton_self _, ?_⟩
    show defaultParams.maxDuration < 0 + 231 / 25 - 0
    norm_num [defaultParams]
  · have hne : ¬ pyStrip "Hello there. Bye." = "" := by decide
    have hstrip : pyStrip "Hello there. Bye." = "Hello there. Bye." := by decide
    have hpairs : sentencePairs "Hello there. Bye."
        = [("Hello there", "."), ("Bye", ".")] := by decide
    have hlne1 : ¬ (segment_line defaultParams.maxCharsPerLine
        ("Hello there" ++ ".")).isEmpty = true := by decide
    have hlne2 : ¬ (segment_line defaultParams.maxCharsPerLine
        ("Bye" ++ ".")).isEmpty = true := by decide
    have hcd1 : cueDuration defaultParams (segment_line defaultParams.maxCharsPerLine
        ("Hello there" ++ ".")) "." = 1 := by
      simp only [cueDuration,
        (by decide : ((segment_line defaultParams.maxCharsPerLine
          ("Hello there" ++ ".")).map String.length).sum = 12),
        if_neg (by decide : ¬ 1 < (segment_line defaultParams.maxCharsPerLine
          ("Hello there" ++ ".")).length),
        if_neg (by decide : ¬ (".".data.contains '!' || ".".data.contains '?') = true)]
      norm_num [defaultParams, max_def, min_def]
    have hcd2 : cueDuration defaultParams (segment_line defaultParams.maxCharsPerLine
        ("Bye" ++ ".")) "." = 1 := by
      simp only [cueDuration,
        (by decide : ((segment_line defaultParams.maxCharsPerLine
          ("Bye" ++ ".")).map String.length).sum = 4),
        if_neg (by decide : ¬ 1 < (segment_line defaultParams.maxCharsPerLine
          ("Bye" ++ ".")).length),
        if_neg (by decide : ¬ (".".data.contains '!' || ".".data.contains '?') = true)]
      norm_num [defaultParams, max_def, min_def]
    have hflow : process_segments defaultParams
        [PySegment.dict "Hello there. Bye." (some 0) (some 1)]
        = [{ text := pyJoin "\n" (segment_line defaultParams.maxCharsPerLine
               ("Hello there" ++ ".")), start := 0, stop := 0 + 1 },
           { text := pyJoin "\n" (segment_line defaultParams.maxCharsPerLine
               ("Bye" ++ ".")), start := 0 + 1, stop := 0 + 1 + (1 - (0 + 1)) }] := by
      rw [process_segments]
      simp only [List.map_cons, List.map_nil, List.flatten_cons, List.flatten_nil,
        List.append_nil]
      rw [processSegment]
      rw [if_neg hne, hstrip, hpairs]
      simp only [Option.getD_some]
      rw [processPairs, if_neg hlne1, hcd1]
      rw [if_neg (by norm_num)]
      rw [processPairs, if_neg hlne2, hcd2]
      rw [if_pos (by norm_num)]
      simp only [processPairs]
    rw [hflow]
    refine ⟨_, List.mem_cons_of_mem _ (List.mem_singleton_self _), ?_⟩
    show 0 + 1 + (1 - (0 + 1)) - (0 + 1) < defaultParams.minDuration
    norm_num [defaultParams]

/-- C3 (amended): for input segments whose effective start does not exceed their
effective end, every cue produced by `process_segments` has duration in
`[0, 1.1 × 1.2 × maxDuration]`; the duration is clamped to `[minDuration, maxDuration]`
only before the multi-line/punctuation multipliers and the truncation to the parent
segment's end, so the final duration can exceed `maxDuration` by the factor 1.32 and
can fall below `minDuration` (down to 0) at the end of a segment. -/
theorem cue_duration_bounds (segs : List PySegment)
    (hord : ∀ seg ∈ segs, segOrdered seg = true) :
    ∀ c ∈ process_segments defaultParams segs,
      0 ≤ c.stop - c.start ∧ c.stop - c.start ≤ (132 / 100) * defaultParams.maxDuration := by
  intro c hc
  rw [process_segments, List.mem_flatten] at hc
  obtain ⟨l, hl, hcl⟩ := hc
  rw [List.mem_map] at hl
  obtain ⟨seg, hseg, rfl⟩ := hl
  have hgoal : 0 ≤ c.stop - c.start ∧ c.stop - c.start ≤ 231 / 25 := by
    cases seg with
    | dict text start? stop? =>
      have hord' := hord _ hseg
      simp only [segOrdered, decide_eq_true_eq] at hord'
      rw [processSegment] at hcl
      split at hcl
      · simp at hcl
      · exact processPairs_duration_bounds _ _ _ hord' c hcl
    | str text =>
      rw [processSegment] at hcl
      split at hcl
      · simp at hcl
      · rw [List.mem_singleton] at hcl
        subst hcl
        have h1 : (1 : ℚ) ≤ min (max ((((((segment_line defaultParams.maxCharsPerLine
            text).map String.length).sum : Nat)) : ℚ) / defaultParams.charsPerSecond)
            defaultParams.minDuration) defaultParams.maxDuration := by
          apply le_min
          · exact le_trans (by norm_num [defaultParams]) (le_max_right _ _)
          · norm_num [defaultParams]
        have h7 : min (max ((((((segment_line defaultParams.maxCharsPerLine
            text).map String.length).sum : Nat)) : ℚ) / defaultParams.charsPerSecond)
            defaultParams.minDuration) defaultParams.maxDuration ≤ 7 := by
          refine le_trans (min_le_right _ _) ?_
          norm_num [defaultParams]
        constructor <;> simp only <;> linarith
  have : (132 / 100 : ℚ) * defaultParams.maxDuration = 231 / 25 := by
    norm_num [defaultParams]
  rw [this]
  exact hgoal

/-- Witness for `cue_duration_bounds` on a concrete segment list. -/
theorem cue_duration_bounds_witness :
    (∀ seg ∈ [PySegment.dict "Hi." (some 0) (some 10)], segOrdered seg = true) ∧
    ∀ c ∈ process_segments defaultParams [PySegment.dict "Hi." (some 0) (some 10)],
      0 ≤ c.stop - c.start ∧ c.stop - c.start ≤ (132 / 100) * defaultParams.maxDuration := by
  have hseg : ∀ seg ∈ [PySegment.dict "Hi." (some 0) (some 10)], segOrdered seg = true := by
    intro seg hs
    rw [List.mem_singleton] at hs
    subst hs
    simp only [segOrdered, Option.getD_some, decide_eq_true_eq]
    norm_num
  exact ⟨hseg, cue_duration_bounds _ hseg⟩

/-! ## Theorems: C5 -/

theorem goodWord_goodLine (s : String) (h : GoodWord s) : GoodLine s :=
  ⟨h.1, fun c hc => h.2 c (List.mem_of_mem_head? (Option.mem_def.mpr hc)),
   fun c hc => h.2 c (List.mem_of_mem_getLast? (Option.mem_def.mpr hc))⟩

theorem goodLine_ne_empty (s : String) (h : GoodLine s) : s ≠ "" := by
  intro he
  exact h.1 (by rw [he])

theorem head?_append_left (l l' : List Char) (h : l ≠ []) : (l ++ l').head? = l.head? := by
  cases l with
  | nil => exact absurd rfl h
  | cons a as => rfl

theorem getLast?_append_right (l l' : List Char) (h : l' ≠ []) :
    (l ++ l').getLast? = l'.getLast? := by
  rw [List.getLast?_append]
  cases hl : l'.getLast? with
  | none => exact absurd (List.getLast?_eq_none_iff.mp hl) h
  | some a => rfl

theorem pyStrip_eq_of_goodLine (s : String) (h : GoodLine s) : pyStrip s = s := by
  obtain ⟨hne, hh, hl⟩ := h
  obtain ⟨c, cs, hdata⟩ : ∃ c cs, s.data = c :: cs := by
    cases hd : s.data with
    | nil => exact absurd hd hne
    | cons c cs => exact ⟨c, cs, rfl⟩
  have hc : c.isWhitespace = false := hh c (by rw [hdata]; rfl)
  rw [pyStrip, hdata, List.dropWhile_cons, hc]
  simp only [Bool.false_eq_true, if_false]
  obtain ⟨d, ds, hrd⟩ : ∃ d ds, (c :: cs).reverse = d :: ds := by
    cases hr : (c :: cs).reverse with
    | nil =>
      have := congrArg List.length hr
      simp at this
    | cons d ds => exact ⟨d, ds, rfl⟩
  have hd : d.isWhitespace = false := by
    apply hl d
    rw [hdata, ← List.head?_reverse, hrd]
    rfl
  rw [hrd, List.dropWhile_cons, hd]
  simp only [Bool.false_eq_true, if_false]
  rw [← hrd, List.reverse_reverse, ← hdata]

theorem pyJoin_goodLine (sep : String) (xs : List String) (hne : xs ≠ [])
    (hall : ∀ l ∈ xs, GoodLine l) : GoodLine (pyJoin sep xs) := by
  induction xs with
  | nil => exact absurd rfl hne
  | cons x xs ih =>
    cases xs with
    | nil => exact hall x (List.mem_singleton_self x)
    | cons y ys =>
      have hx := hall x (List.mem_cons_self x (y :: ys))
      have hrest : GoodLine (pyJoin sep (y :: ys)) :=
        ih (by simp) (fun l hl => hall l (List.mem_cons_of_mem _ hl))
      show GoodLine (x ++ sep ++ pyJoin sep (y :: ys))
      refine ⟨?_, ?_, ?_⟩
      · rw [String.data_append, String.data_append]
        intro habs
        rcases List.append_eq_nil.mp habs with ⟨h1, _⟩
        rcases List.append_eq_nil.mp h1 with ⟨h2, _⟩
        exact hx.1 h2
      · intro c hc
        rw [String.data_append, String.data_append,
          head?_append_left _ _ (by
            intro habs
            rcases List.append_eq_nil.mp habs with ⟨h2, _⟩
            exact hx.1 h2),
          head?_append_left _ _ hx.1] at hc
        exact hx.2.1 c hc
      · intro c hc
        rw [String.data_append, getLast?_append_right _ _ hrest.1] at hc
        exact hrest.2.2 c hc

theorem drop_goodWord (w : String) (k : Nat) (hw : GoodWord w) (hk : k < w.length) :
    GoodWord (w.drop k) := by
  constructor
  · rw [String.data_drop]
    intro habs
    have hlen := congrArg List.length habs
    rw [List.length_drop] at hlen
    have hwl : w.length = w.data.length := rfl
    simp at hlen
    omega
  · intro c hc
    rw [String.data_drop] at hc
    exact hw.2 c (List.drop_subset k w.data hc)

theorem take_hyphen_goodLine (w : String) (k : Nat) (hw : GoodWord w) :
    GoodLine (w.take k ++ "-") := by
  have hdash : ("-" : String).data = ['-'] := rfl
  refine ⟨?_, ?_, ?_⟩
  · rw [String.data_append, hdash]
    intro habs
    rcases List.append_eq_nil.mp habs with ⟨_, h2⟩
    exact List.cons_ne_nil _ _ h2
  · intro c hc
    rw [String.data_append, hdash, String.data_take] at hc
    cases htk : w.data.take k with
    | nil =>
      rw [htk] at hc
      simp only [List.nil_append, List.head?_cons, Option.some.injEq] at hc
      rw [← hc]
      decide
    | cons d ds =>
      rw [htk] at hc
      rw [head?_append_left _ _ (List.cons_ne_nil d ds)] at hc
      simp only [List.head?_cons, Option.some.injEq] at hc
      rw [← hc]
      exact hw.2 d (List.take_subset k w.data (htk ▸ List.mem_cons_self d ds))
  · intro c hc
    rw [String.data_append, hdash, List.getLast?_concat] at hc
    injection hc with hc
    rw [← hc]
    decide

theorem pySplitChars_good (cs : List Char) :
    ∀ w ∈ pySplitChars cs, w ≠ [] ∧ ∀ c ∈ w, c.isWhitespace = false := by
  induction cs using pySplitChars.induct with
  | case1 => simp [pySplitChars]
  | case2 c hc =>
    rw [pySplitChars, if_pos hc]
    simp
  | case3 c hc =>
    rw [pySplitChars, if_neg hc]
    intro w hw
    rw [List.mem_singleton.mp hw]
    refine ⟨List.cons_ne_nil _ _, ?_⟩
    intro x hx
    rw [List.mem_singleton.mp hx]
    exact Bool.not_eq_true _ ▸ (eq_false_of_ne_true hc)
  | case4 c d cs hc ih =>
    rw [pySplitChars, if_pos hc]
    exact ih
  | case5 c d cs hc hd ih =>
    rw [pySplitChars, if_neg hc, if_pos hd]
    intro w hw
    rcases List.mem_cons.mp hw with h | h
    · rw [h]
      refine ⟨List.cons_ne_nil _ _, ?_⟩
      intro x hx
      rw [List.mem_singleton.mp hx]
      exact eq_false_of_ne_true hc
    · exact ih w h
  | case6 c d cs hc hd hnil ih =>
    rw [pySplitChars, if_neg hc, if_neg hd, hnil]
    intro w hw
    rw [List.mem_singleton.mp hw]
    refine ⟨List.cons_ne_nil _ _, ?_⟩
    intro x hx
    rw [List.mem_singleton.mp hx]
    exact eq_false_of_ne_true hc
  | case7 c d cs hc hd w ws hcons ih =>
    rw [pySplitChars, if_neg hc, if_neg hd, hcons]
    intro x hx
    rcases List.mem_cons.mp hx with h | h
    · rw [h]
      obtain ⟨hw1, hw2⟩ := ih w (hcons ▸ List.mem_cons_self w ws)
      refine ⟨List.cons_ne_nil _ _, ?_⟩
      intro y hy
      rcases List.mem_cons.mp hy with hy | hy
      · rw [hy]
        exact eq_false_of_ne_true hc
      · exact hw2 y hy
    · exact ih x (hcons ▸ List.mem_cons_of_mem w h)

theorem segLineGo_good (maxChars : Nat) (ws : List String) :
    ∀ curLine lines curLen,
      (∀ w ∈ ws, GoodWord w) →
      (∀ w ∈ curLine, GoodWord w) →
      (∀ l ∈ lines, GoodLine l) →
      ∀ l ∈ segLineGo maxChars ws curLine curLen lines, GoodLine l := by
  induction ws with
  | nil =>
    intro curLine lines curLen _ hcur hlines l hl
    cases curLine with
    | nil => exact hlines l hl
    | cons a as =>
      rw [segLineGo] at hl
      rcases List.mem_append.mp hl with h | h
      · exact hlines l h
      · rw [List.mem_singleton.mp h]
        exact pyJoin_goodLine " " (a :: as) (List.cons_ne_nil a as)
          (fun x hx => goodWord_goodLine x (hcur x hx))
  | cons w ws ih =>
    intro curLine lines curLen hw hcur hlines l hl
    have hww : GoodWord w := hw w (List.mem_cons_self w ws)
    have hw' : ∀ x ∈ ws, GoodWord x := fun x hx => hw x (List.mem_cons_of_mem w hx)
    have hsingle : ∀ x ∈ [w], GoodWord x := by
      intro x hx
      rw [List.mem_singleton.mp hx]
      exact hww
    cases curLine with
    | nil =>
      rw [segLineGo] at hl
      by_cases hov : maxChars < curLen + w.length
      · rw [if_pos hov] at hl
        by_cases hlong : maxChars < w.length
        · rw [if_pos hlong] at hl
          refine ih _ _ _ hw' ?_ ?_ l hl
          · intro x hx
            rw [List.mem_singleton.mp hx]
            exact drop_goodWord w (maxChars - 1) hww (by omega)
          · intro x hx
            rcases List.mem_append.mp hx with h | h
            · exact hlines x h
            · rw [List.mem_singleton.mp h]
              exact take_hyphen_goodLine w (maxChars - 1) hww
        · rw [if_neg hlong] at hl
          exact ih _ _ _ hw' hsingle hlines l hl
      · rw [if_neg hov] at hl
        exact ih _ _ _ hw' hsingle hlines l hl
    | cons a as =>
      rw [segLineGo] at hl
      by_cases hov : maxChars < curLen + w.length + 1
      · rw [if_pos hov] at hl
        refine ih _ _ _ hw' hsingle ?_ l hl
        intro x hx
        rcases List.mem_append.mp hx with h | h
        · exact hlines x h
        · rw [List.mem_singleton.mp h]
          exact pyJoin_goodLine " " (a :: as) (List.cons_ne_nil a as)
            (fun x hx => goodWord_goodLine x (hcur x hx))
      · rw [if_neg hov] at hl
        refine ih _ _ _ hw' ?_ hlines l hl
        intro x hx
        rcases List.mem_append.mp hx with h | h
        · exact hcur x h
        · rw [List.mem_singleton.mp h]
          exact hww

theorem segment_line_good (maxChars : Nat) (text : String) :
    ∀ l ∈ segment_line maxChars text, GoodLine l := by
  apply segLineGo_good
  · intro w hw
    rw [List.mem_map] at hw
    obtain ⟨cw, hcw, rfl⟩ := hw
    obtain ⟨h1, h2⟩ := pySplitChars_good text.data cw hcw
    exact ⟨h1, h2⟩
  · intro w hw
    simp at hw
  · intro l hl
    simp at hl

theorem processPairs_text_good (P : SubtitleParams) (stopTime : ℚ)
    (pairs : List (String × String)) :
    ∀ cur, ∀ c ∈ processPairs P stopTime pairs cur, GoodLine c.text := by
  induction pairs with
  | nil =>
    intro cur c hc
    simp [processPairs] at hc
  | cons sp rest ih =>
    obtain ⟨s, p⟩ := sp
    intro cur c hc
    rw [processPairs] at hc
    by_cases hemp : (segment_line P.maxCharsPerLine (s ++ p)).isEmpty = true
    · rw [if_pos hemp] at hc
      exact ih cur c hc
    · rw [if_neg hemp] at hc
      have hjoin : GoodLine (pyJoin "\n" (segment_line P.maxCharsPerLine (s ++ p))) := by
        apply pyJoin_goodLine
        · intro habs
          exact hemp (List.isEmpty_iff.mpr habs)
        · intro x hx
          exact segment_line_good _ _ x hx
      split at hc
      · rcases List.mem_cons.mp hc with h | h
        · rw [h]
          exact hjoin
        · exact ih _ c h
      · rcases List.mem_cons.mp hc with h | h
        · rw [h]
          exact hjoin
        · exact ih _ c h

theorem process_segments_text_good (P : SubtitleParams) (segs : List PySegment) :
    ∀ c ∈ process_segments P segs, GoodLine c.text := by
  intro c hc
  rw [process_segments, List.mem_flatten] at hc
  obtain ⟨l, hl, hcl⟩ := hc
  rw [List.mem_map] at hl
  obtain ⟨seg, hseg, rfl⟩ := hl
  cases seg with
  | dict text s e =>
    rw [processSegment] at hcl
    split at hcl
    · simp at hcl
    · exact processPairs_text_good _ _ _ _ c hcl
  | str text =>
    rw [processSegment] at hcl
    by_cases hemp : (segment_line P.maxCharsPerLine text).isEmpty = true
    · rw [if_pos hemp] at hcl
      simp at hcl
    · rw [if_neg hemp] at hcl
      rw [List.mem_singleton.mp hcl]
      apply pyJoin_goodLine
      · intro habs
        exact hemp (List.isEmpty_iff.mpr habs)
      · intro x hx
        exact segment_line_good _ _ x hx

theorem srtGo_eq_specSrtGo (cues : List SubtitleCue)
    (h : ∀ c ∈ cues, pyStrip c.text = c.text ∧ c.text ≠ "") :
    ∀ i, srtGo i cues = specSrtGo i cues := by
  induction cues with
  | nil => intro i; rfl
  | cons c rest ih =>
    intro i
    obtain ⟨hstrip, hne⟩ := h c (List.mem_cons_self c rest)
    rw [srtGo, specSrtGo, hstrip, if_neg hne,
      ih (fun x hx => h x (List.mem_cons_of_mem c hx)) (i + 1)]

/-- C5 (amended): for the original worker (`process_generate_subtitles`), the written
SRT artifact for the processed segments of any input is exactly the spec's block
sequence — `index\nHH:MM:SS,mmm --> HH:MM:SS,mmm\ntext\n\n` per cue with sequential
1-based indices and no gaps (its skip-blank-cue guard never fires, because every cue
text produced by `process_segments` is non-blank).  The modular worker's
`write_subtitles`, however, writes only the cue texts joined by blank lines. -/
theorem srt_content_blocks (segs : List PySegment) :
    srtContent (process_segments defaultParams segs)
      = specSrtBlocks (process_segments defaultParams segs) := by
  rw [srtContent, specSrtBlocks]
  apply srtGo_eq_specSrtGo
  intro c hc
  have hg := process_segments_text_good defaultParams segs c hc
  exact ⟨pyStrip_eq_of_goodLine _ hg, goodLine_ne_empty _ hg⟩

theorem format_timestamp_zero : format_timestamp 0 = "00:00:00,000" := by
  simp only [format_timestamp, pyFloorMod, pyInt]
  norm_num
  decide

theorem format_timestamp_one : format_timestamp 1 = "00:00:01,000" := by
  simp only [format_timestamp, pyFloorMod, pyInt]
  norm_num
  decide

/-- C5 (counterexample): the modular worker's `write_subtitles` emits no index and no
timestamp line — for one cue "Hello" from 0s to 1s it writes just `"Hello"`, not the
block `1\n00:00:00,000 --> 00:00:01,000\nHello\n\n` that the claim requires of the
written SRT artifact. -/
theorem write_subtitles_not_blocks :
    write_subtitles [{ start_time := 0, duration := 1, text := "Hello" }] = "Hello" ∧
    specSrtBlocks [{ text := "Hello", start := 0, stop := 1 }]
      = "1\n00:00:00,000 --> 00:00:01,000\nHello\n\n" ∧
    write_subtitles [{ start_time := 0, duration := 1, text := "Hello" }]
      ≠ specSrtBlocks [{ text := "Hello", start := 0, stop := 1 }] := by
  have h2 : specSrtBlocks [{ text := "Hello", start := 0, stop := 1 }]
      = "1\n00:00:00,000 --> 00:00:01,000\nHello\n\n" := by
    simp only [specSrtBlocks, specSrtGo, srtBlock]
    rw [format_timestamp_zero, format_timestamp_one]
    decide
  refine ⟨rfl, h2, ?_⟩
  rw [h2]
  decide

/-! ## Theorems: C6, C7 -/

theorem chunkSize_pos (C : ChunkConsts) (duration fileSize : ℚ)
    (hmins : 0 < C.minChunkSize) (hmcd : 0 < C.maxChunkDuration)
    (hmpc : 0 < C.maxParallelChunks) (hdur : 0 < duration) :
    0 < chunkSize C duration fileSize := by
  rw [chunkSize]
  apply lt_min
  · exact lt_of_lt_of_le hmins (le_max_left _ _)
  · exact lt_min hmcd (div_pos hdur hmpc)

theorem totalChunks_mul_le (C : ChunkConsts) (duration fileSize : ℚ)
    (hc : 0 < chunkSize C duration fileSize) (hdur : 0 < duration) :
    totalChunks C duration fileSize = 1 ∨
      ((totalChunks C duration fileSize : ℚ) * chunkSize C duration fileSize ≤ duration) := by
  rw [totalChunks]
  set c := chunkSize C duration fileSize with hcdef
  have hq : 0 ≤ duration / c := le_of_lt (div_pos hdur hc)
  rw [pyInt, if_pos hq]
  have hnn : 0 ≤ ⌊duration / c⌋ := Int.floor_nonneg.mpr hq
  rcases Nat.lt_or_ge (⌊duration / c⌋).toNat 1 with h | h
  · left
    omega
  · right
    have h1 : max 1 (⌊duration / c⌋).toNat = (⌊duration / c⌋).toNat := by omega
    rw [h1]
    have h3 : ((⌊duration / c⌋).toNat : ℤ) = ⌊duration / c⌋ := Int.toNat_of_nonneg hnn
    have h2 : (((⌊duration / c⌋).toNat : ℕ) : ℚ) ≤ duration / c := by
      calc (((⌊duration / c⌋).toNat : ℕ) : ℚ) = ((⌊duration / c⌋ : ℤ) : ℚ) := by
            exact_mod_cast h3
        _ ≤ duration / c := Int.floor_le _
    calc (((⌊duration / c⌋).toNat : ℕ) : ℚ) * c ≤ (duration / c) * c :=
          mul_le_mul_of_nonneg_right h2 (le_of_lt hc)
      _ = duration := div_mul_cancel₀ duration (ne_of_gt hc)

/-- C6: chunk coverage: for every `totalDuration > 0` and any file size (under the
spec-modelled positivity constraints on the chunking constants), every point of
`[0, totalDuration)` lies inside some planned chunk's `[startTime, startTime + duration)`
— the plan covers the file with no gaps. -/
theorem chunk_coverage (C : ChunkConsts) (duration fileSize : ℚ)
    (hmins : 0 < C.minChunkSize) (hmcd : 0 < C.maxChunkDuration)
    (hmpc : 0 < C.maxParallelChunks) (hov : 0 ≤ C.chunkOverlap) (hdur : 0 < duration) :
    ∀ x : ℚ, 0 ≤ x → x < duration →
      ∃ ch ∈ planChunks C duration fileSize,
        ch.startTime ≤ x ∧ x < ch.startTime + ch.duration := by
  intro x hx0 hxd
  have hc := chunkSize_pos C duration fileSize hmins hmcd hmpc hdur
  rw [planChunks]
  set c := chunkSize C duration fileSize with hcdef
  set n := totalChunks C duration fileSize with hndef
  set o := C.chunkOverlap with hodef
  have hn1 : 1 ≤ n := Nat.le_max_left 1 _
  by_cases hlast : ((n - 1 : ℕ) : ℚ) * (c - o) ≤ x
  · refine ⟨_, List.mem_map.mpr ⟨n - 1, List.mem_range.mpr (by omega), rfl⟩, hlast, ?_⟩
    show x < ((n - 1 : ℕ) : ℚ) * (c - o) +
      (if n - 1 = n - 1 then duration - ((n - 1 : ℕ) : ℚ) * (c - o) else c)
    rw [if_pos rfl]
    linarith
  · push_neg at hlast
    have hco : 0 < c - o := by
      by_contra hco
      push_neg at hco
      have h0 : ((n - 1 : ℕ) : ℚ) * (c - o) ≤ 0 :=
        mul_nonpos_of_nonneg_of_nonpos (Nat.cast_nonneg _) hco
      linarith
    set i : ℕ := (⌊x / (c - o)⌋).toNat with hidef
    have hq0 : 0 ≤ x / (c - o) := div_nonneg hx0 (le_of_lt hco)
    have hfl0 : 0 ≤ ⌊x / (c - o)⌋ := Int.floor_nonneg.mpr hq0
    have hicast : ((i : ℕ) : ℚ) = ((⌊x / (c - o)⌋ : ℤ) : ℚ) := by
      exact_mod_cast Int.toNat_of_nonneg hfl0
    have hile : (i : ℚ) * (c - o) ≤ x := by
      rw [hicast]
      calc ((⌊x / (c - o)⌋ : ℤ) : ℚ) * (c - o) ≤ (x / (c - o)) * (c - o) :=
            mul_le_mul_of_nonneg_right (Int.floor_le _) (le_of_lt hco)
        _ = x := div_mul_cancel₀ x (ne_of_gt hco)
    have hlt : x < ((i : ℚ) + 1) * (c - o) := by
      rw [hicast]
      have h2 : x / (c - o) < ((⌊x / (c - o)⌋ : ℤ) : ℚ) + 1 := Int.lt_floor_add_one _
      calc x = (x / (c - o)) * (c - o) := (div_mul_cancel₀ x (ne_of_gt hco)).symm
        _ < (((⌊x / (c - o)⌋ : ℤ) : ℚ) + 1) * (c - o) := mul_lt_mul_of_pos_right h2 hco
    have hin : i < n - 1 := by
      have h4 : (i : ℚ) * (c - o) < ((n - 1 : ℕ) : ℚ) * (c - o) := lt_of_le_of_lt hile hlast
      have h5 : (i : ℚ) < ((n - 1 : ℕ) : ℚ) := lt_of_mul_lt_mul_right h4 (le_of_lt hco)
      exact_mod_cast h5
    refine ⟨_, List.mem_map.mpr ⟨i, List.mem_range.mpr (by omega), rfl⟩, hile, ?_⟩
    show x < (i : ℚ) * (c - o) +
      (if i = n - 1 then duration - (i : ℚ) * (c - o) else c)
    rw [if_neg (by omega)]
    have hexp : ((i : ℚ) + 1) * (c - o) = (i : ℚ) * (c - o) + (c - o) := by ring
    linarith

/-- Witness for `chunk_coverage` at concrete inputs: a 2 s file, point x = 1. -/
theorem chunk_coverage_witness :
    ∃ ch ∈ planChunks specChunkConsts 2 0,
      ch.startTime ≤ 1 ∧ (1 : ℚ) < ch.startTime + ch.duration :=
  chunk_coverage specChunkConsts 2 0 (by norm_num [specChunkConsts])
    (by norm_num [specChunkConsts]) (by norm_num [specChunkConsts])
    (by norm_num [specChunkConsts]) (by norm_num) 1 (by norm_num) (by norm_num)

/-- C7 (counterexample): with the spec-modelled constants (`chunkOverlap = 1.0`), a 2 s
file gets chunk size `min(max(5, 0), min(30, 2/4)) = 0.5 < overlap`, four planned
chunks, and the second chunk starts at `1 * (0.5 - 1) = -0.5 < 0`. -/
theorem chunk_start_time_negative :
    ∃ ch ∈ planChunks specChunkConsts 2 0, ch.startTime < 0 := by
  have hcs : chunkSize specChunkConsts 2 0 = 1 / 2 := by
    rw [chunkSize]
    norm_num [specChunkConsts, min_def, max_def]
  have htc : totalChunks specChunkConsts 2 0 = 4 := by
    rw [totalChunks, hcs, pyInt]
    norm_num
    rfl
  rw [planChunks, htc]
  refine ⟨_, List.mem_map.mpr ⟨1, List.mem_range.mpr (by norm_num), rfl⟩, ?_⟩
  show ((1 : ℕ) : ℚ) * (chunkSize specChunkConsts 2 0 - specChunkConsts.chunkOverlap) < 0
  rw [hcs]
  norm_num [specChunkConsts]

/-- C7 (amended): every planned chunk has `duration > 0`, and consecutive chunks overlap
by exactly `chunkOverlap`; `startTime ≥ 0` holds under the additional proviso
`chunkOverlap ≤ chunkSize` — for short files the computed chunk size drops below the
overlap, the stride `chunkSize - chunkOverlap` turns negative, and later start times are
negative. -/
theorem chunk_invariant (C : ChunkConsts) (duration fileSize : ℚ)
    (hmins : 0 < C.minChunkSize) (hmcd : 0 < C.maxChunkDuration)
    (hmpc : 0 < C.maxParallelChunks) (hov : 0 ≤ C.chunkOverlap) (hdur : 0 < duration) :
    (∀ ch ∈ planChunks C duration fileSize, 0 < ch.duration) ∧
    (C.chunkOverlap ≤ chunkSize C duration fileSize →
      ∀ ch ∈ planChunks C duration fileSize, 0 ≤ ch.startTime) ∧
    (∀ i ch ch', (planChunks C duration fileSize)[i]? = some ch →
      (planChunks C duration fileSize)[i + 1]? = some ch' →
      ch.startTime + ch.duration - ch'.startTime = C.chunkOverlap) := by
  have hc := chunkSize_pos C duration fileSize hmins hmcd hmpc hdur
  have hmul := totalChunks_mul_le C duration fileSize hc hdur
  have hn1 : 1 ≤ totalChunks C duration fileSize := Nat.le_max_left 1 _
  have hlastpos : 0 < duration -
      ((totalChunks C duration fileSize - 1 : ℕ) : ℚ) *
        (chunkSize C duration fileSize - C.chunkOverlap) := by
    set c := chunkSize C duration fileSize with hcdef
    set n := totalChunks C duration fileSize with hndef
    rcases hmul with h1 | h1
    · rw [h1]
      norm_num
      linarith
    · by_cases hco : c - C.chunkOverlap ≤ 0
      · have h0 : ((n - 1 : ℕ) : ℚ) * (c - C.chunkOverlap) ≤ 0 :=
          mul_nonpos_of_nonneg_of_nonpos (Nat.cast_nonneg _) hco
        linarith
      · push_neg at hco
        have hcastn : ((n - 1 : ℕ) : ℚ) = (n : ℚ) - 1 := by
          push_cast [Nat.cast_sub hn1]
          ring
        rw [hcastn]
        have h2 : ((n : ℚ) - 1) * (c - C.chunkOverlap) ≤ ((n : ℚ) - 1) * c := by
          apply mul_le_mul_of_nonneg_left (by linarith)
          have : (1 : ℚ) ≤ (n : ℚ) := by exact_mod_cast hn1
          linarith
        have h3 : ((n : ℚ) - 1) * c < (n : ℚ) * c := by
          nlinarith
        linarith
  refine ⟨?_, ?_, ?_⟩
  · intro ch hch
    rw [planChunks, List.mem_map] at hch
    obtain ⟨i, hi, rfl⟩ := hch
    rw [List.mem_range] at hi
    show 0 < if i = totalChunks C duration fileSize - 1
      then duration - (i : ℚ) * (chunkSize C duration fileSize - C.chunkOverlap)
      else chunkSize C duration fileSize
    by_cases hil : i = totalChunks C duration fileSize - 1
    · rw [if_pos hil, hil]
      exact hlastpos
    · rw [if_neg hil]
      exact hc
  · intro hole ch hch
    rw [planChunks, List.mem_map] at hch
    obtain ⟨i, hi, rfl⟩ := hch
    show 0 ≤ (i : ℚ) * (chunkSize C duration fileSize - C.chunkOverlap)
    exact mul_nonneg (Nat.cast_nonneg _) (by linarith)
  · intro i ch ch' hch hch'
    rw [planChunks, List.getElem?_map] at hch hch'
    have hlen : (List.range (totalChunks C duration fileSize)).length
        = totalChunks C duration fileSize := List.length_range _
    have hi1 : i + 1 < totalChunks C duration fileSize := by
      by_contra habs
      push_neg at habs
      rw [List.getElem?_eq_none (by omega : (List.range
        (totalChunks C duration fileSize)).length ≤ i + 1)] at hch'
      simp at hch'
    have hi : i < totalChunks C duration fileSize := by omega
    rw [List.getElem?_range hi] at hch
    rw [List.getElem?_range hi1] at hch'
    simp only [Option.map_some', Option.some.injEq] at hch hch'
    rw [← hch, ← hch']
    show (i : ℚ) * (chunkSize C duration fileSize - C.chunkOverlap) +
        (if i = totalChunks C duration fileSize - 1
         then duration - (i : ℚ) * (chunkSize C duration fileSize - C.chunkOverlap)
         else chunkSize C duration fileSize) -
        ((i + 1 : ℕ) : ℚ) * (chunkSize C duration fileSize - C.chunkOverlap)
      = C.chunkOverlap
    rw [if_neg (by omega)]
    push_cast
    ring

/-- Witness for `chunk_invariant` at concrete inputs: an 8 s file, where the computed
chunk size 2 is at least the overlap 1. -/
theorem chunk_invariant_witness :
    (∀ ch ∈ planChunks specChunkConsts 8 0, 0 < ch.duration) ∧
    (specChunkConsts.chunkOverlap ≤ chunkSize specChunkConsts 8 0 →
      ∀ ch ∈ planChunks specChunkConsts 8 0, 0 ≤ ch.startTime) ∧
    (∀ i ch ch', (planChunks specChunkConsts 8 0)[i]? = some ch →
      (planChunks specChunkConsts 8 0)[i + 1]? = some ch' →
      ch.startTime + ch.duration - ch'.startTime = specChunkConsts.chunkOverlap) :=
  chunk_invariant specChunkConsts 8 0 (by norm_num [specChunkConsts])
    (by norm_num [specChunkConsts]) (by norm_num [specChunkConsts])
    (by norm_num [specChunkConsts]) (by norm_num)

/-! ## Theorems: C9 -/

theorem lookupTask_updateTasks (f : ProcessingTask → ProcessingTask) (fp q : String)
    (tasks : List (String × ProcessingTask)) :
    lookupTask (updateTasks f fp tasks) q
      = if q = fp then (lookupTask tasks q).map f else lookupTask tasks q := by
  induction tasks with
  | nil =>
    simp only [updateTasks, lookupTask, Option.map_none']
    split <;> rfl
  | cons kv rest ih =>
    obtain ⟨k, t⟩ := kv
    rw [updateTasks]
    by_cases hk : k = fp
    · rw [if_pos hk]
      by_cases hq : k = q
      · have hqfp : q = fp := by rw [← hq, hk]
        rw [lookupTask, if_pos hq, if_pos hqfp, lookupTask, if_pos hq, Option.map_some']
      · have hqfp : ¬ q = fp := fun h => hq (hk.trans h.symm)
        rw [if_neg hqfp, lookupTask, if_neg hq, lookupTask, if_neg hq, ih, if_neg hqfp]
    · rw [if_neg hk]
      by_cases hq : k = q
      · have hqfp : ¬ q = fp := fun h => hk (hq.trans h)
        rw [if_neg hqfp, lookupTask, if_pos hq, lookupTask, if_pos hq]
      · rw [lookupTask, if_neg hq, ih]
        by_cases hqfp : q = fp
        · rw [if_pos hqfp, if_pos hqfp, lookupTask, if_neg hq]
        · rw [if_neg hqfp, if_neg hqfp, lookupTask, if_neg hq]

theorem keys_updateTasks (f : ProcessingTask → ProcessingTask) (fp : String)
    (tasks : List (String × ProcessingTask)) :
    (updateTasks f fp tasks).map Prod.fst = tasks.map Prod.fst := by
  induction tasks with
  | nil => rfl
  | cons kv rest ih =>
    obtain ⟨k, t⟩ := kv
    rw [updateTasks]
    by_cases hk : k = fp
    · rw [if_pos hk]
      simp [ih]
    · rw [if_neg hk]
      simp [ih]

theorem lookupTask_append_of_isSome (tasks tasks' : List (String × ProcessingTask))
    (q : String) (h : (lookupTask tasks q).isSome) :
    lookupTask (tasks ++ tasks') q = lookupTask tasks q := by
  induction tasks with
  | nil => simp [lookupTask] at h
  | cons kv rest ih =>
    obtain ⟨k, t⟩ := kv
    rw [List.cons_append]
    by_cases hk : k = q
    · rw [lookupTask, if_pos hk, lookupTask, if_pos hk]
    · rw [lookupTask, if_neg hk, lookupTask, if_neg hk]
      apply ih
      rw [lookupTask, if_neg hk] at h
      exact h

theorem add_files_lookup (fsys : String → Bool) (files : List String) :
    ∀ st : BMState, ∀ q, (lookupTask st.tasks q).isSome →
      lookupTask (add_files fsys st files).tasks q = lookupTask st.tasks q := by
  induction files with
  | nil => intro st q _; rfl
  | cons file rest ih =>
    intro st q h
    rw [add_files]
    by_cases hv : validateFile fsys st file
    · rw [if_pos hv]
      have h2 := lookupTask_append_of_isSome st.tasks [(file, newTask file)] q h
      calc lookupTask (add_files fsys
            { st with tasks := st.tasks ++ [(file, newTask file)] } rest).tasks q
          = lookupTask (st.tasks ++ [(file, newTask file)]) q := by
            apply ih
            show (lookupTask (st.tasks ++ [(file, newTask file)]) q).isSome
            rw [h2]
            exact h
        _ = lookupTask st.tasks q := h2
    · rw [if_neg hv]
      exact ih st q h

theorem add_files_nodup (fsys : String → Bool) (files : List String) :
    ∀ st : BMState, (st.tasks.map Prod.fst).Nodup →
      ((add_files fsys st files).tasks.map Prod.fst).Nodup := by
  induction files with
  | nil => intro st h; exact h
  | cons file rest ih =>
    intro st h
    rw [add_files]
    by_cases hv : validateFile fsys st file
    · rw [if_pos hv]
      apply ih
      show ((st.tasks ++ [(file, newTask file)]).map Prod.fst).Nodup
      rw [List.map_append]
      rw [List.nodup_append]
      refine ⟨h, List.nodup_singleton _, ?_⟩
      intro a ha hb
      simp only [List.map_cons, List.map_nil, List.mem_singleton] at hb
      subst hb
      rw [validateFile] at hv
      simp only [Bool.and_eq_true, Bool.not_eq_true', List.any_eq_false, beq_iff_eq] at hv
      obtain ⟨_, hnotin⟩ := hv
      rw [List.mem_map] at ha
      obtain ⟨kv, hkv, hfst⟩ := ha
      exact absurd hfst (hnotin kv hkv)
    · rw [if_neg hv]
      exact ih st h

theorem firstPending_mem (tasks : List (String × ProcessingTask)) (fp : String)
    (h : firstPending tasks = some fp) : fp ∈ tasks.map Prod.fst := by
  induction tasks with
  | nil => simp [firstPending] at h
  | cons kv rest ih =>
    obtain ⟨k, t⟩ := kv
    rw [firstPending] at h
    by_cases hp : t.status = ProcessingStatus.pending
    · rw [if_pos hp] at h
      injection h with h
      subst h
      exact List.mem_cons_self _ _
    · rw [if_neg hp] at h
      exact List.mem_cons_of_mem _ (ih h)

theorem firstPending_status (tasks : List (String × ProcessingTask))
    (hnd : (tasks.map Prod.fst).Nodup) (fp : String) (h : firstPending tasks = some fp) :
    (lookupTask tasks fp).map (fun t => t.status) = some ProcessingStatus.pending := by
  induction tasks with
  | nil => simp [firstPending] at h
  | cons kv rest ih =>
    obtain ⟨k, t⟩ := kv
    rw [List.map_cons] at hnd
    obtain ⟨hknotin, hnd'⟩ := List.nodup_cons.mp hnd
    rw [firstPending] at h
    by_cases hp : t.status = ProcessingStatus.pending
    · rw [if_pos hp] at h
      injection h with h
      subst h
      rw [lookupTask, if_pos rfl, Option.map_some', hp]
    · rw [if_neg hp] at h
      have hmem := firstPending_mem rest fp h
      have hk : ¬ k = fp := by
        intro he
        subst he
        exact hknotin hmem
      rw [lookupTask, if_neg hk]
      exact ih hnd' h

theorem get_status_updateTask_ne (st : BMState) (fp q : String)
    (f : ProcessingTask → ProcessingTask) (h : ¬ q = fp) :
    (st.updateTask fp f).get_status q = st.get_status q := by
  show (lookupTask (updateTasks f fp st.tasks) q).map (fun t => t.status)
    = (lookupTask st.tasks q).map (fun t => t.status)
  rw [lookupTask_updateTasks, if_neg h]

theorem get_status_startTask_ne (st : BMState) (fp q : String) (h : ¬ q = fp) :
    (startTask st fp).get_status q = st.get_status q := by
  show (lookupTask (updateTasks _ fp st.tasks) q).map (fun t => t.status)
    = (lookupTask st.tasks q).map (fun t => t.status)
  rw [lookupTask_updateTasks, if_neg h]

theorem get_status_startTask_self (st : BMState) (fp : String)
    (h : (lookupTask st.tasks fp).isSome) :
    (startTask st fp).get_status fp = some ProcessingStatus.processing := by
  show (lookupTask (updateTasks _ fp st.tasks) fp).map (fun t => t.status)
    = some ProcessingStatus.processing
  rw [lookupTask_updateTasks, if_pos rfl]
  obtain ⟨t, ht⟩ := Option.isSome_iff_exists.mp h
  rw [ht]
  rfl

theorem startTask_inv (st : BMState) (fp : String) (hinv : BMInv st)
    (hfp : (lookupTask st.tasks fp).map (fun t => t.status)
      = some ProcessingStatus.pending) :
    BMInv (startTask st fp) := by
  obtain ⟨hnd, hact⟩ := hinv
  constructor
  · show ((updateTasks _ fp st.tasks).map Prod.fst).Nodup
    rw [keys_updateTasks]
    exact hnd
  · intro q hq
    have hqmem : q ∈ st.active ++ [fp] := hq
    rcases List.mem_append.mp hqmem with h | h
    · have hne : ¬ q = fp := by
        intro he
        subst he
        have h1 := hact q h
        have h2 : st.get_status q = some ProcessingStatus.pending := hfp
        rw [h1] at h2
        injection h2 with h2
        cases h2
      rw [get_status_startTask_ne st fp q hne]
      exact hact q h
    · rw [List.mem_singleton.mp h]
      apply get_status_startTask_self
      cases hl : lookupTask st.tasks fp with
      | none =>
        rw [hl] at hfp
        simp at hfp
      | some t => simp

theorem processBatchGo_inv (fuel : Nat) :
    ∀ st : BMState, BMInv st → BMInv (processBatchGo fuel st) := by
  induction fuel with
  | zero => intro st h; exact h
  | succ fuel ih =>
    intro st h
    rw [processBatchGo]
    split
    · cases hfp : firstPending st.tasks with
      | none => exact h
      | some fp =>
        exact ih _ (startTask_inv st fp h (firstPending_status st.tasks h.1 fp hfp))
    · exact h

theorem processNextBatch_inv (st : BMState) (h : BMInv st) : BMInv (processNextBatch st) := by
  rw [processNextBatch]
  split
  · exact processBatchGo_inv _ _ h
  · exact h

theorem cleanupTask_tasks (st : BMState) (fp : String) : (cleanupTask st fp).tasks = st.tasks := by
  rw [cleanupTask]
  split <;> rfl

theorem cleanupTask_active (st : BMState) (fp : String) :
    (cleanupTask st fp).active = st.active.filter (fun x => x ≠ fp) := by
  rw [cleanupTask]
  split <;> rfl

theorem cleanupTask_get_status (st : BMState) (fp q : String) :
    (cleanupTask st fp).get_status q = st.get_status q := by
  simp only [BMState.get_status, cleanupTask_tasks]

theorem add_files_inv (fsys : String → Bool) (files : List String) :
    ∀ st : BMState, BMInv st → BMInv (add_files fsys st files) := by
  induction files with
  | nil => intro st h; exact h
  | cons file rest ih =>
    intro st h
    rw [add_files]
    by_cases hv : validateFile fsys st file
    · rw [if_pos hv]
      apply ih
      constructor
      · show ((st.tasks ++ [(file, newTask file)]).map Prod.fst).Nodup
        rw [List.map_append, List.nodup_append]
        refine ⟨h.1, List.nodup_singleton _, ?_⟩
        intro a ha hb
        simp only [List.map_cons, List.map_nil, List.mem_singleton] at hb
        subst hb
        rw [validateFile] at hv
        simp only [Bool.and_eq_true, Bool.not_eq_true', List.any_eq_false, beq_iff_eq] at hv
        obtain ⟨_, hnotin⟩ := hv
        rw [List.mem_map] at ha
        obtain ⟨kv, hkv, hfst⟩ := ha
        exact absurd hfst (hnotin kv hkv)
      · intro q hq
        have hst := h.2 q hq
        have hsome : (lookupTask st.tasks q).isSome := by
          cases hl : lookupTask st.tasks q with
          | none =>
            rw [BMState.get_status, hl] at hst
            simp at hst
          | some t => simp
        show (lookupTask (st.tasks ++ [(file, newTask file)]) q).map (fun t => t.status)
          = some ProcessingStatus.processing
        rw [lookupTask_append_of_isSome st.tasks _ q hsome]
        exact hst
    · rw [if_neg hv]
      exact ih st h

theorem cancelAll_keys : ∀ (l : List String) (st : BMState),
    (cancelAll l st).tasks.map Prod.fst = st.tasks.map Prod.fst := by
  intro l
  induction l with
  | nil => intro st; rfl
  | cons fp rest ih =>
    intro st
    rw [cancelAll, ih]
    show (updateTasks _ fp st.tasks).map Prod.fst = _
    rw [keys_updateTasks]

theorem cancelAll_get_status : ∀ (l : List String) (st : BMState) (fp : String),
    (∀ q ∈ l, ¬ q = fp) →
    (cancelAll l st).get_status fp = st.get_status fp := by
  intro l
  induction l with
  | nil => intro st fp _; rfl
  | cons q rest ih =>
    intro st fp h
    rw [cancelAll, ih _ fp (fun x hx => h x (List.mem_cons_of_mem q hx))]
    exact get_status_updateTask_ne st q fp _
      (fun he => h q (List.mem_cons_self q rest) he.symm)

theorem onTaskCompleted_inv (st : BMState) (fp : String) (h : BMInv st) :
    BMInv (onTaskCompleted st fp) := by
  rw [onTaskCompleted]
  split
  · apply processNextBatch_inv
    constructor
    · rw [cleanupTask_tasks]
      show ((updateTasks _ fp st.tasks).map Prod.fst).Nodup
      rw [keys_updateTasks]
      exact h.1
    · intro q hq
      rw [cleanupTask_active] at hq
      have hqa : q ∈ st.active := List.mem_of_mem_filter hq
      have hqne : ¬ q = fp := by
        have := List.of_mem_filter hq
        simpa using this
      rw [cleanupTask_get_status, get_status_updateTask_ne st fp q _ hqne]
      exact h.2 q hqa
  · exact h

theorem onTaskFailed_inv (st : BMState) (fp err : String) (h : BMInv st) :
    BMInv (onTaskFailed st fp err) := by
  rw [onTaskFailed]
  split
  · apply processNextBatch_inv
    constructor
    · rw [cleanupTask_tasks]
      show ((updateTasks _ fp st.tasks).map Prod.fst).Nodup
      rw [keys_updateTasks]
      exact h.1
    · intro q hq
      rw [cleanupTask_active] at hq
      have hqa : q ∈ st.active := List.mem_of_mem_filter hq
      have hqne : ¬ q = fp := by
        have := List.of_mem_filter hq
        simpa using this
      rw [cleanupTask_get_status, get_status_updateTask_ne st fp q _ hqne]
      exact h.2 q hqa
  · exact h

theorem stop_processing_inv (st : BMState) (h : BMInv st) : BMInv (stop_processing st) := by
  constructor
  · show ((cancelAll st.active { st with isProcessing := false }).tasks.map Prod.fst).Nodup
    rw [cancelAll_keys]
    exact h.1
  · intro q hq
    exact absurd hq (List.not_mem_nil q)

theorem process_files_inv (fsys : String → Bool) (st : BMState)
    (files : Option (List String)) (h : BMInv st) : BMInv (process_files fsys st files) := by
  have key : ∀ st1 : BMState, BMInv st1 →
      BMInv (if st1.tasks.isEmpty then st1
             else processNextBatch { st1 with isProcessing := true }) := by
    intro st1 h1
    split
    · exact h1
    · exact processNextBatch_inv _ ⟨h1.1, fun q hq => h1.2 q hq⟩
  rw [process_files.eq_def]
  cases files with
  | none => exact key st h
  | some fs =>
    by_cases he : fs.isEmpty
    · simp only [he, if_true]
      exact key st h
    · simp only [he, Bool.false_eq_true, if_false]
      exact key _ (add_files_inv fsys fs st h)

theorem applyOp_inv (fsys : String → Bool) (st : BMState) (op : BMOp) (h : BMInv st) :
    BMInv (applyOp fsys st op) := by
  cases op with
  | addFilesOp files => exact add_files_inv fsys files st h
  | processFilesOp files => exact process_files_inv fsys st files h
  | taskCompletedOp fp => exact onTaskCompleted_inv st fp h
  | taskFailedOp fp err => exact onTaskFailed_inv st fp err h
  | stopProcessingOp => exact stop_processing_inv st h

theorem runOps_inv (fsys : String → Bool) (mc : Nat) (ops : List BMOp) :
    BMInv (runOps fsys mc ops) := by
  have key : ∀ (l : List BMOp) (st : BMState), BMInv st →
      BMInv (l.foldl (applyOp fsys) st) := by
    intro l
    induction l with
    | nil => intro st h; exact h
    | cons op rest ih =>
      intro st h
      rw [List.foldl_cons]
      exact ih _ (applyOp_inv fsys st op h)
  exact key ops (initBM mc) ⟨List.nodup_nil, fun q hq => absurd hq (List.not_mem_nil q)⟩

theorem processBatchGo_terminal (fuel : Nat) :
    ∀ (st : BMState) (fp : String) (s : ProcessingStatus),
      (st.tasks.map Prod.fst).Nodup →
      st.get_status fp = some s → isTerminal s = true →
      (processBatchGo fuel st).get_status fp = some s := by
  induction fuel with
  | zero => intro st fp s _ hs _; exact hs
  | succ fuel ih =>
    intro st fp s hnd hs hterm
    rw [processBatchGo]
    split
    · cases hfp : firstPending st.tasks with
      | none => exact hs
      | some fp' =>
        have hp := firstPending_status st.tasks hnd fp' hfp
        have hne : ¬ fp = fp' := by
          intro he
          subst he
          have h2 : st.get_status fp = some ProcessingStatus.pending := hp
          rw [hs] at h2
          injection h2 with h2
          subst h2
          cases hterm
        apply ih
        · show ((updateTasks _ fp' st.tasks).map Prod.fst).Nodup
          rw [keys_updateTasks]
          exact hnd
        · rw [get_status_startTask_ne st fp' fp hne]
          exact hs
        · exact hterm
    · exact hs

theorem processNextBatch_terminal (st : BMState) (fp : String) (s : ProcessingStatus)
    (hnd : (st.tasks.map Prod.fst).Nodup)
    (hs : st.get_status fp = some s) (hterm : isTerminal s = true) :
    (processNextBatch st).get_status fp = some s := by
  rw [processNextBatch]
  split
  · exact processBatchGo_terminal _ st fp s hnd hs hterm
  · exact hs

theorem applyOp_terminal (fsys : String → Bool) (st : BMState) (op : BMOp) (fp : String)
    (s : ProcessingStatus) (hinv : BMInv st)
    (hs : st.get_status fp = some s) (hterm : isTerminal s = true) :
    (applyOp fsys st op).get_status fp = some s := by
  obtain ⟨hnd, hact⟩ := hinv
  have hsome : (lookupTask st.tasks fp).isSome := by
    cases hl : lookupTask st.tasks fp with
    | none =>
      rw [BMState.get_status, hl] at hs
      simp at hs
    | some t => simp
  have hne_of_active : ∀ q ∈ st.active, ¬ q = fp := by
    intro q hq he
    subst he
    have h1 := hact q hq
    rw [hs] at h1
    injection h1 with h1
    subst h1
    cases hterm
  cases op with
  | addFilesOp files =>
    show (add_files fsys st files).get_status fp = some s
    rw [BMState.get_status, add_files_lookup fsys files st fp hsome]
    exact hs
  | processFilesOp files =>
    have key : ∀ st1 : BMState, (st1.tasks.map Prod.fst).Nodup →
        st1.get_status fp = some s →
        (if st1.tasks.isEmpty then st1
         else processNextBatch { st1 with isProcessing := true }).get_status fp = some s := by
      intro st1 hnd1 h1
      split
      · exact h1
      · exact processNextBatch_terminal { st1 with isProcessing := true } fp s hnd1 h1 hterm
    show (process_files fsys st files).get_status fp = some s
    rw [process_files.eq_def]
    cases files with
    | none => exact key st hnd hs
    | some fs =>
      by_cases he : fs.isEmpty
      · simp only [he, if_true]
        exact key st hnd hs
      · simp only [he, Bool.false_eq_true, if_false]
        refine key _ (add_files_nodup fsys fs st hnd) ?_
        show (add_files fsys st fs).get_status fp = some s
        rw [BMState.get_status, add_files_lookup fsys fs st fp hsome]
        exact hs
  | taskCompletedOp fp' =>
    show (onTaskCompleted st fp').get_status fp = some s
    rw [onTaskCompleted]
    by_cases hcont : st.active.contains fp'
    · rw [if_pos hcont]
      have hmem : fp' ∈ st.active := by
        simpa using hcont
      have hne : ¬ fp = fp' := fun he => hne_of_active fp' hmem (he ▸ rfl)
      apply processNextBatch_terminal
      · rw [cleanupTask_tasks]
        show ((updateTasks _ fp' st.tasks).map Prod.fst).Nodup
        rw [keys_updateTasks]
        exact hnd
      · rw [cleanupTask_get_status, get_status_updateTask_ne st fp' fp _ hne]
        exact hs
      · exact hterm
    · rw [if_neg hcont]
      exact hs
  | taskFailedOp fp' err =>
    show (onTaskFailed st fp' err).get_status fp = some s
    rw [onTaskFailed]
    by_cases hcont : st.active.contains fp'
    · rw [if_pos hcont]
      have hmem : fp' ∈ st.active := by
        simpa using hcont
      have hne : ¬ fp = fp' := fun he => hne_of_active fp' hmem (he ▸ rfl)
      apply processNextBatch_terminal
      · rw [cleanupTask_tasks]
        show ((updateTasks _ fp' st.tasks).map Prod.fst).Nodup
        rw [keys_updateTasks]
        exact hnd
      · rw [cleanupTask_get_status, get_status_updateTask_ne st fp' fp _ hne]
        exact hs
      · exact hterm
    · rw [if_neg hcont]
      exact hs
  | stopProcessingOp =>
    show (stop_processing st).get_status fp = some s
    show (cancelAll st.active { st with isProcessing := false }).get_status fp = some s
    rw [cancelAll_get_status st.active _ fp hne_of_active]
    exact hs

/-- C9: in every state of the batch manager reachable by any sequence of its operations
(`add_files`, `process_files`, the task-completed and task-failed callbacks,
`stop_processing`), once a task's status is Completed, Failed or Cancelled, no further
operation changes that task's status. -/
theorem terminal_state_final (fsys : String → Bool) (mc : Nat) (ops : List BMOp)
    (op : BMOp) (fp : String) (s : ProcessingStatus)
    (hs : (runOps fsys mc ops).get_status fp = some s)
    (hterm : isTerminal s = true) :
    (applyOp fsys (runOps fsys mc ops) op).get_status fp = some s :=
  applyOp_terminal fsys _ op fp s (runOps_inv fsys mc ops) hs hterm

/-- Witness for `terminal_state_final`: a file is added, processed and completed; a
subsequent task-failed callback leaves its status Completed. -/
theorem terminal_state_final_witness :
    (applyOp (fun _ => true)
      (runOps (fun _ => true) 2
        [BMOp.addFilesOp ["a"], BMOp.processFilesOp none, BMOp.taskCompletedOp "a"])
      (BMOp.taskFailedOp "a" "boom")).get_status "a"
      = some ProcessingStatus.completed :=
  terminal_state_final (fun _ => true) 2
    [BMOp.addFilesOp ["a"], BMOp.processFilesOp none, BMOp.taskCompletedOp "a"]
    (BMOp.taskFailedOp "a" "boom") "a" ProcessingStatus.completed (by decide) (by decide)
